import Mathlib

/-!
# Verification of the trollius task core (`trollius/tasks.py`)

Shallow embedding of the task/future/combinator machinery of
`trollius/tasks.py`.  The `Future` class itself (`trollius/futures.py`) is
not part of the sources at hand, so its operations are modelled from the
specification of the future data type (state set
{Pending, Finished(Value), Finished(Error), Cancelled}; `cancel` on a
terminal future returns false, otherwise transitions to Cancelled and
enqueues the callbacks via `call_soon`; `set_result`/`set_exception`
require the Pending state; `add_done_callback` on a terminal future
enqueues the callback, otherwise appends it; `result`/`exception` mark a
stored exception as observed).  Everything about `Task`, `gather`,
`shield`, `wait`, `wait_for`, `as_completed` and `async` is translated
directly from `tasks.py`.
-/

/-- Exceptions that circulate through the task machinery.  `CancelledError`,
`TimeoutError`, `InvalidStateError` and the `RuntimeError` used for bad
yields are distinguished; any other exception is `generic n`. -/
inductive Exc where
  | cancelledError
  | timeoutError
  | invalidStateError
  | badYield (r : Nat)
  | generic (n : Nat)
  deriving DecidableEq, Repr

/-- State of a future: `Pending`, `Finished(Value)`, `Finished(Error)` or
`Cancelled`.  Terminal states are absorbing.  The value type is a
parameter because different futures carry different payloads. -/
inductive FutState (α : Type) where
  | pending
  | finishedV (v : α)
  | finishedE (e : Exc)
  | cancelled
  deriving DecidableEq, Repr

namespace FutState

/-- `Future.done()`: true iff the state is terminal. -/
def done : FutState α → Bool
  | .pending => false
  | _ => true

/-- `Future._exception`: the stored exception, set only by `set_exception`
(a cancelled future stores no exception object). -/
def excStored : FutState α → Option Exc
  | .finishedE e => some e
  | _ => none

/-- `Future.result()` as a pure outcome: raises `InvalidStateError` when
pending, `CancelledError` when cancelled, re-raises a stored error and
returns the stored value otherwise.  Modelled from the spec:
`trollius/futures.py` is not among the sources. -/
def resultExcept : FutState α → Except Exc α
  | .pending => .error .invalidStateError
  | .cancelled => .error .cancelledError
  | .finishedE e => .error e
  | .finishedV v => .ok v

end FutState

/-! ## `async` (`ensure_task`), `tasks.py` lines 481-496

`async(coro_or_future, loop=None)` first unwraps one `FromWrapper` layer,
then returns a `Future` argument unchanged (after the loop check), wraps a
coroutine in a new `Task`, and raises `TypeError` otherwise. -/

namespace EnsureTask

/-- The possible arguments of `async`: a `FromWrapper` around another
value, a `Future` (identified by its id, carrying its owning loop), a
coroutine object, or anything else. -/
inductive Arg where
  | fromWrapper (obj : Arg)
  | fut (fid : Nat) (loop : Nat)
  | coro (c : Nat)
  | other (n : Nat)
  deriving DecidableEq, Repr

/-- Result of `async`: the very same future object (identified by id), a
fresh `Task` wrapping the coroutine on the given loop, or one of the two
errors raised. -/
inductive AsyncResult where
  | sameFuture (fid : Nat)
  | newTask (c : Nat) (loop : Option Nat)
  | valueError
  | typeError
  deriving DecidableEq, Repr

/-- `async(coro_or_future, loop=None)`, translated from
`tasks.py` lines 481-496.  One `FromWrapper` layer is stripped; a
`Future` is returned directly unless the `loop` argument is given and
differs from the future's loop (→ `ValueError`); a coroutine becomes a
new `Task`; anything else raises `TypeError`. -/
def async (coroOrFuture : Arg) (loop : Option Nat) : AsyncResult :=
  let x := match coroOrFuture with
    | .fromWrapper o => o
    | y => y
  match x with
  | .fut fid fl =>
      match loop with
      | some l => if l ≠ fl then .valueError else .sameFuture fid
      | none => .sameFuture fid
  | .coro c => .newTask c loop
  | .fromWrapper _ => .typeError
  | .other _ => .typeError

end EnsureTask

/-! ## `shield`, `tasks.py` lines 589-637 -/

namespace Shield

/-- A future together with the flag recording whether a stored exception
(or a cancellation) has been observed via `result()`/`exception()`/
`cancelled()`.  `excObserved` is the negation of the "unobserved stored
exception" condition of the spec. -/
structure SFut where
  state : FutState Nat
  excObserved : Bool
  deriving DecidableEq, Repr

/-- State of one `shield` instance after the non-done branch was taken:
the lifted inner future and the fresh outer future. -/
structure SSt where
  inner : SFut
  outer : SFut
  deriving DecidableEq, Repr

/-- Which object `shield` returns: the inner future itself (the
`if inner.done(): return inner` shortcut of lines 616-618) or a freshly
created outer future. -/
inductive ShieldReturn where
  | innerItself
  | newOuter
  deriving DecidableEq, Repr

/-- The dispatch at the head of `shield` (`tasks.py` lines 615-620): once
the argument has been lifted by `async`, a done inner future is returned
directly, otherwise a new outer future is created. -/
def shieldDispatch (inner : SFut) : ShieldReturn :=
  if inner.state.done then .innerItself else .newOuter

/-- Initial shield state for a pending inner future: the outer future is
created pending. -/
def shieldInit (inner : SFut) : SSt :=
  { inner := inner, outer := { state := .pending, excObserved := true } }

/-- `Future.cancel()` on the outer future.  Modelled from the spec
(`trollius/futures.py` is not among the sources): a terminal future
returns false, otherwise the state becomes Cancelled and true is
returned.  The inner future is not an input of the operation atall. -/
def outerCancel (st : SSt) : SSt × Bool :=
  if st.outer.state.done then (st, false)
  else ({ st with outer := { st.outer with state := .cancelled } }, true)

/-- `inner.cancelled() or inner.exception()` (`tasks.py` line 625): marks
the inner future's outcome as retrieved.  A cancelled inner short-circuits
(`cancelled()` returns true); otherwise `exception()` observes the stored
exception. -/
def markInnerRetrieved (f : SFut) : SFut :=
  { f with excObserved := true }

/-- `_done_callback(inner)` of `shield` (`tasks.py` lines 622-634),
run when the inner future completes:
if the outer was cancelled the inner outcome is only marked retrieved;
a cancelled inner cancels the outer; otherwise the inner's exception or
result is copied onto the outer. -/
def shieldDoneCallback (st : SSt) : SSt :=
  if st.outer.state = .cancelled then
    { st with inner := markInnerRetrieved st.inner }
  else
    match st.inner.state with
    | .cancelled => (outerCancel st).1
    | .finishedE e =>
        { st with inner := { st.inner with excObserved := true },
                  outer := { st.outer with state := .finishedE e } }
    | .finishedV v =>
        { st with inner := { st.inner with excObserved := true },
                  outer := { st.outer with state := .finishedV v } }
    | .pending => st

end Shield

/-! ## `gather`, `tasks.py` lines 499-586 -/

namespace Gather

/-- A per-child stored outcome: Python stores either the child's result
value or an exception instance in the positional `results` slot. -/
inductive GRes where
  | val (v : Nat)
  | err (e : Exc)
  deriving DecidableEq, Repr

/-- A child future as read by gather's `_done_callback`: its state
together with the flag recording whether a stored exception has been
observed (`fut.exception()` sets it). -/
structure GFut where
  state : FutState Nat
  excObserved : Bool
  deriving DecidableEq, Repr

/-- State of one `gather` call: the aggregate (`_GatheringFuture`) state,
the children, the positional `results` list (`[None] * n` initially, so
`none` models the Python `None` placeholder) and the `nfinished`
counter. -/
structure GSt where
  outer : FutState (List (Option GRes))
  children : List GFut
  results : List (Option GRes)
  nfinished : Nat
  deriving DecidableEq, Repr

/-- The tail of `_done_callback` (`tasks.py` lines 579-582):
`results[i] = res; nfinished += 1; if nfinished == n:
outer.set_result(results)`. -/
def finishSlot (n i : Nat) (res : Option GRes) (st : GSt) : GSt :=
  let results := st.results.set i res
  let nfin := st.nfinished + 1
  { st with results := results, nfinished := nfin,
            outer := if nfin = n then .finishedV results else st.outer }

/-- `_done_callback(i, fut)` of `gather` (`tasks.py` lines 561-582).
When the aggregate is no longer pending only a stored child exception is
marked retrieved; a cancelled child produces a fresh `CancelledError`
(propagated as the aggregate's exception unless `return_exceptions`); a
child exception is retrieved and propagated likewise; otherwise the
child's result is stored positionally, and the aggregate resolves once
all `n` children have reported. -/
def doneCallback (returnExceptions : Bool) (n i : Nat) (st : GSt) : GSt :=
  match st.children[i]? with
  | none => st
  | some fut =>
    if st.outer ≠ .pending then
      match fut.state.excStored with
      | some _ =>
          { st with
            children := st.children.set i { fut with excObserved := true } }
      | none => st
    else
      match fut.state with
      | .cancelled =>
          if !returnExceptions then { st with outer := .finishedE .cancelledError }
          else finishSlot n i (some (.err .cancelledError)) st
      | .finishedE e =>
          let st2 := { st with
            children := st.children.set i { fut with excObserved := true } }
          if !returnExceptions then { st2 with outer := .finishedE e }
          else finishSlot n i (some (.err e)) st2
      | .finishedV v => finishSlot n i (some (.val v)) st
      | .pending => finishSlot n i none st

/-- `Future.cancel()` on one child.  Modelled from the spec
(`trollius/futures.py` is not among the sources): terminal children are
left alone, a pending child transitions to Cancelled. -/
def childCancel (f : GFut) : GFut :=
  if f.state.done then f else { f with state := .cancelled }

/-- `_GatheringFuture.cancel()` (`tasks.py` lines 511-516): false when the
aggregate is done; otherwise every child is cancelled and true is
returned, without marking the aggregate itself cancelled. -/
def gatheringCancel (st : GSt) : GSt × Bool :=
  if st.outer.done then (st, false)
  else ({ st with children := st.children.map childCancel }, true)

end Gather

/-! ## `wait_for`, `tasks.py` lines 330-366

`wait_for(fut, timeout)` with a non-`None` timeout creates a fresh
`waiter` future, arms `timeout_handle = loop.call_later(timeout,
_release_waiter, waiter, False)`, lifts `fut` through `async` and
registers `cb = partial(_release_waiter, waiter, True)` on it, then
suspends on `yield From(waiter)`.  On resume it reads the waiter's
boolean: `True` returns `fut.result()`, `False` removes `cb`, cancels
`fut` and raises `TimeoutError`; the `finally` clause cancels the timer
handle. -/

namespace WaitFor

/-- State of one `wait_for(fut, timeout≠None)` call after the setup of
lines 351-356: the `waiter` future (its payload is the boolean passed to
`_release_waiter`), the lifted inner future, whether the timer handle has
been cancelled, whether `cb` is still registered on the inner future, and
whether `fut.cancel()` has been invoked by `wait_for`. -/
structure WSt where
  waiter : FutState Bool
  fut : FutState Nat
  timeoutHandleCancelled : Bool
  cbRegistered : Bool
  futCancelRequested : Bool
  deriving DecidableEq, Repr

/-- The setup of `wait_for` (lines 351-356) around an inner future that
`async` lifted to `fut0`. -/
def waitForSetup (fut0 : FutState Nat) : WSt :=
  { waiter := .pending, fut := fut0, timeoutHandleCancelled := false,
    cbRegistered := true, futCancelRequested := false }

/-- `_release_waiter(waiter, value)` (`tasks.py` lines 325-327): sets the
waiter's result unless it is already done. -/
def releaseWaiter (value : Bool) (w : FutState Bool) : FutState Bool :=
  if w.done then w else .finishedV value

/-- The armed timer firing: `_release_waiter(waiter, False)`. -/
def timerFire (st : WSt) : WSt :=
  { st with waiter := releaseWaiter false st.waiter }

/-- The done-callback `cb` firing when the inner future completes:
`_release_waiter(waiter, True)` (only while the callback is
registered). -/
def innerDoneCb (st : WSt) : WSt :=
  if st.cbRegistered then { st with waiter := releaseWaiter true st.waiter }
  else st

/-- `fut.cancel()` as called by `wait_for` on timeout (line 363): the
cancel request is recorded; for a plain future a pending state
transitions to Cancelled (for a `Task` this is the cooperative cancel
request). -/
def futCancel (st : WSt) : WSt :=
  { st with futCancelRequested := true,
            fut := if st.fut.done then st.fut else .cancelled }

/-- The body of `wait_for` resuming after `yield From(waiter)` (lines
358-366), `none` while the waiter is still pending.  A `True` waiter
value returns `fut.result()`; a `False` value removes `cb`, cancels the
inner future and raises `TimeoutError`; an exception or cancellation of
the waiter itself propagates; the `finally` clause cancels the timer
handle on every path. -/
def waitForResume (st : WSt) : Option (WSt × Except Exc Nat) :=
  match st.waiter with
  | .pending => none
  | .finishedV b =>
      if b then
        some ({ st with timeoutHandleCancelled := true }, st.fut.resultExcept)
      else
        let st2 := futCancel { st with cbRegistered := false }
        some ({ st2 with timeoutHandleCancelled := true }, .error .timeoutError)
  | .finishedE e => some ({ st with timeoutHandleCancelled := true }, .error e)
  | .cancelled =>
      some ({ st with timeoutHandleCancelled := true }, .error .cancelledError)

end WaitFor

/-! ## `wait` / `_wait`, `tasks.py` lines 294-409 -/

namespace WaitC

/-- The `return_when` modes accepted by `wait`. -/
inductive ReturnWhen where
  | firstCompleted
  | firstException
  | allCompleted
  deriving DecidableEq, Repr

/-- State of one `_wait(fs, timeout, return_when, loop)` call after the
setup of lines 376-394: the `waiter` future, the children (already lifted
to futures by `wait`), the `counter` non-local, whether a timeout handle
was armed, and whether it has been cancelled. -/
structure WSt where
  waiter : FutState Bool
  children : List (FutState Nat)
  counter : Int
  hasTimeout : Bool
  timeoutHandleCancelled : Bool
  deriving DecidableEq, Repr

/-- The setup of `_wait` (lines 376-394): pending waiter, counter at
`len(fs)`, `_on_completion` registered on every child. -/
def waitSetup (children : List (FutState Nat)) (hasTimeout : Bool) : WSt :=
  { waiter := .pending, children := children,
    counter := (children.length : Int), hasTimeout := hasTimeout,
    timeoutHandleCancelled := false }

/-- The timeout handle of `_wait` firing: `_release_waiter(waiter)`
with the default value `True`. -/
def timerFire (st : WSt) : WSt :=
  { st with waiter := if st.waiter.done then st.waiter else .finishedV true }

/-- `if timeout_handle is not None: timeout_handle.cancel()` (lines
388-389 and 399-400). -/
def cancelTimeoutHandle (st : WSt) : WSt :=
  if st.hasTimeout then { st with timeoutHandleCancelled := true } else st

/-- `_on_completion(f)` (`tasks.py` lines 382-391) for child `i`: the
counter is decremented; when the release condition holds (all children
reported, or `FIRST_COMPLETED`, or `FIRST_EXCEPTION` with a
non-cancelled child holding an exception) the timeout handle is cancelled
and the waiter resolved to `False`. -/
def onCompletion (returnWhen : ReturnWhen) (i : Nat) (st : WSt) : WSt :=
  match st.children[i]? with
  | none => st
  | some f =>
      let counter := st.counter - 1
      if counter ≤ 0 ∨ returnWhen = .firstCompleted ∨
          (returnWhen = .firstException ∧
            (¬f = .cancelled ∧ f.excStored ≠ none)) then
        let st2 := cancelTimeoutHandle st
        { st2 with counter := counter,
                   waiter := if st2.waiter.done then st2.waiter
                             else .finishedV false }
      else { st with counter := counter }

/-- `_wait` resuming after `yield From(waiter)` (lines 396-409), `none`
while the waiter is still pending.  The `finally` clause cancels the
timeout handle; then the callbacks are removed and the children are
partitioned by `f.done()` into the `(done, pending)` index sets which are
returned via `raise Return(done, pending)`.  An exception or cancellation
thrown into `_wait` through the waiter propagates.  No path constructs a
`TimeoutError`. -/
def waitFinish (st : WSt) : Option (WSt × Except Exc (List Nat × List Nat)) :=
  match st.waiter with
  | .pending => none
  | .finishedV _ =>
      some (cancelTimeoutHandle st,
        .ok ((List.range st.children.length).filter
              (fun i => (st.children.getD i .pending).done),
             (List.range st.children.length).filter
              (fun i => !(st.children.getD i .pending).done)))
  | .finishedE e => some (cancelTimeoutHandle st, .error e)
  | .cancelled => some (cancelTimeoutHandle st, .error .cancelledError)

end WaitC

/-! ## `as_completed`, `tasks.py` lines 413-466 -/

namespace AsCompleted

/-- `todo = set(async(f, loop=loop) for f in set(fs))` (line 434): the
distinct elements of the input collection, each lifted to a future.
`set(fs)` deduplicates the collection, modelled by `List.dedup` over the
future ids. -/
def todoOf (fs : List Nat) : List Nat := fs.dedup

/-- The number of awaitables `as_completed` yields:
`for _ in range(len(todo)): yield From(_wait_for_one())` (lines
465-466). -/
def numAwaitables (fs : List Nat) : Nat := (todoOf fs).length

/-- State of one `as_completed(fs, timeout)` call: the outstanding
`todo` set, the `done` FIFO queue (`none` is the dummy value pushed by
`_on_timeout`), the states of the lifted futures, and the timeout-handle
bookkeeping. -/
structure ASt where
  todo : List Nat
  doneQ : List (Option Nat)
  futs : Nat → FutState Nat
  timeoutHandleCancelled : Bool
  hasTimeout : Bool

/-- The initial state (lines 434-437, 461-464): every lifted future is in
`todo`, the queue is empty, `_on_completion` registered on each. -/
def asCompletedInit (fs : List Nat) (futs : Nat → FutState Nat)
    (hasTimeout : Bool) : ASt :=
  { todo := todoOf fs, doneQ := [], futs := futs,
    timeoutHandleCancelled := false, hasTimeout := hasTimeout }

/-- `_on_completion(f)` (`tasks.py` lines 445-451): a no-op when
`_on_timeout` already cleared `todo`; otherwise `f` moves from `todo`
onto the `done` queue, and the timeout handle is cancelled when `todo`
becomes empty. -/
def onCompletion (f : Nat) (st : ASt) : ASt :=
  if st.todo = [] then st
  else
    let todo2 := st.todo.erase f
    let st2 := { st with todo := todo2, doneQ := st.doneQ ++ [some f] }
    if todo2 = [] ∧ st.hasTimeout then
      { st2 with timeoutHandleCancelled := true }
    else st2

/-- `_on_timeout()` (`tasks.py` lines 439-443): a dummy `None` is queued
for every outstanding future and `todo` is cleared. -/
def onTimeout (st : ASt) : ASt :=
  { st with doneQ := st.doneQ ++ st.todo.map (fun _ => none), todo := [] }

/-- The outcome of `_wait_for_one` for one queue entry (lines 453-459):
the dummy `None` raises `TimeoutError`, a future raises or returns its
`result()`. -/
def queueEntryResult (futs : Nat → FutState Nat) : Option Nat → Except Exc Nat
  | none => .error .timeoutError
  | some f => (futs f).resultExcept

/-- `_wait_for_one()` (`tasks.py` lines 453-459): `done.get()` pops the
head of the FIFO (suspending — `none` here — while it is empty); a dummy
raises `TimeoutError` and a future's `result()` is returned or
re-raised. -/
def waitForOne (st : ASt) : Option (ASt × Except Exc Nat) :=
  match st.doneQ with
  | [] => none
  | entry :: rest =>
      some ({ st with doneQ := rest }, queueEntryResult st.futs entry)

/-- A sequence of completions, each running `_on_completion` for the
completed future in order. -/
def runCompletions (l : List Nat) (st : ASt) : ASt :=
  l.foldl (fun s f => onCompletion f s) st

end AsCompleted

/-! ## The Task core: `Task.__init__`, `Task.cancel`, `Task._step`,
`Task._wakeup` (`tasks.py` lines 34-283) together with the event-loop
queue (`call_soon`) and the Future primitives they drive.

The system state holds all futures and tasks by id (a `Task` is a
`Future` plus its `TaskData`), the loop's `call_soon` FIFO of pending
invocations, and the per-loop current-task slot.  A coroutine is a pure
transition function from a program counter and a resume argument
(`next`/`send`/`throw`) to an outcome; a coroutine body therefore cannot
itself mutate the system mid-step (re-entrant `task.cancel()` from
inside the coroutine is outside this model, which makes the re-cancel
branch of `_step` lines 259-261 provably inactive here, though it is
translated).  `BaseException`s that are not `Exception`s are not
modelled: every `Exc` is an `Exception`. -/

namespace Core

/-- Values sent into and returned from coroutines (opaque payloads). -/
abbrev Val := Nat

/-- How a coroutine is resumed by `_step` (lines 217-223): `next(coro)`
when there is no value, `coro.send(value)` for a value, and
`coro.throw(exc)` for an exception. -/
inductive ResumeArg where
  | next
  | send (v : Val)
  | throwE (e : Exc)
  deriving DecidableEq, Repr

mutual
/-- What a coroutine can yield to `_step` (lines 244-270): an existing
future (by id), a coroutine object (lifted by `async`), a
Lock/Condition/Semaphore (wrapped via `_lock_coroutine` and lifted — the
program argument models that acquisition coroutine), the bare `None`
yield, or any other value (a bad yield). -/
inductive YieldVal where
  | fut (fid : Nat)
  | coro (p : CoroProg)
  | lockPrim (p : CoroProg)
  | bareYield
  | bad (r : Nat)

/-- One step of a coroutine: it suspends yielding a value (with its new
program counter), terminates with `raise Return(v)` / `StopIteration`
(the optional value covers both), or raises an exception. -/
inductive CoroResult where
  | yielded (y : YieldVal) (pc : Nat)
  | ret (v : Option Val)
  | raiseE (e : Exc)

/-- A coroutine as a pure transition function from program counter and
resume argument to an outcome. -/
inductive CoroProg where
  | mk (resume : Nat → ResumeArg → CoroResult)
end

/-- Run one resume transition of a coroutine program. -/
def CoroProg.resume : CoroProg → Nat → ResumeArg → CoroResult
  | .mk f => f

/-- A done-callback registered on a future.  The task core registers
exactly one kind: `Task._wakeup` bound to a task. -/
inductive Callback where
  | wakeup (tid : Nat)
  deriving DecidableEq, Repr

/-- An invocation sitting in the loop's `call_soon` FIFO: a scheduled
`Task._step(value, exc)` or a done-callback invocation `cb(fut)`. -/
inductive Call where
  | step (tid : Nat) (value : Option Val) (exc : Option Exc)
  | runCb (cb : Callback) (fid : Nat)
  deriving DecidableEq, Repr

/-- A future: its state, its registered done-callbacks (in registration
order) and the flag recording that a stored exception has been
observed. -/
structure Fut where
  state : FutState (Option Val)
  callbacks : List Callback
  excObserved : Bool
  deriving DecidableEq, Repr

/-- The task-specific part of a `Task` (its future part lives in
`Sys.futs` under the same id): the coroutine and its program counter,
`_fut_waiter` and `_must_cancel`. -/
structure TaskData where
  coro : CoroProg
  pc : Nat
  fut_waiter : Option Nat
  must_cancel : Bool

/-- The whole system: futures and tasks by id, the loop's `call_soon`
FIFO, the current-task slot and the id supply. -/
structure Sys where
  futs : Nat → Option Fut
  tasks : Nat → Option TaskData
  queue : List Call
  current : Option Nat
  nextId : Nat

/-- Replace the future stored under `fid`. -/
def updFut (s : Sys) (fid : Nat) (f : Fut) : Sys :=
  { s with futs := fun j => if j = fid then some f else s.futs j }

/-- Replace the task data stored under `tid`. -/
def updTask (s : Sys) (tid : Nat) (td : TaskData) : Sys :=
  { s with tasks := fun j => if j = tid then some td else s.tasks j }

/-- The common tail of the Future completion operations.  Modelled from
the spec: the future transitions to the terminal state `ns`, and its
callbacks are enqueued via `call_soon` in registration order and cleared
(callbacks are never invoked inline). -/
def completeFut (s : Sys) (fid : Nat) (f : Fut) (ns : FutState (Option Val))
    (obs : Bool) : Sys :=
  { (updFut s fid { state := ns, callbacks := [], excObserved := obs }) with
    queue := s.queue ++ f.callbacks.map (fun cb => Call.runCb cb fid) }

/-- `Future.cancel()`.  Modelled from the spec: false on a terminal
future; otherwise transition to Cancelled, enqueue the callbacks, return
true. -/
def futCancel (s : Sys) (fid : Nat) : Sys × Bool :=
  match s.futs fid with
  | none => (s, false)
  | some f =>
      if f.state.done then (s, false)
      else (completeFut s fid f .cancelled f.excObserved, true)

/-- `Future.set_result(v)`.  Modelled from the spec: `none` models the
`InvalidStateError` raised unless the future is pending. -/
def setResult (s : Sys) (fid : Nat) (v : Option Val) : Option Sys :=
  match s.futs fid with
  | none => none
  | some f =>
      if f.state = .pending then some (completeFut s fid f (.finishedV v) f.excObserved)
      else none

/-- `Future.set_exception(e)`.  Modelled from the spec: as `set_result`,
and the stored exception starts unobserved. -/
def setException (s : Sys) (fid : Nat) (e : Exc) : Option Sys :=
  match s.futs fid with
  | none => none
  | some f =>
      if f.state = .pending then some (completeFut s fid f (.finishedE e) false)
      else none

/-- `Future.add_done_callback(cb)`.  Modelled from the spec: on a
terminal future the invocation is enqueued via `call_soon`; otherwise the
callback is appended.  It is never invoked synchronously. -/
def addDoneCallback (s : Sys) (fid : Nat) (cb : Callback) : Option Sys :=
  match s.futs fid with
  | none => none
  | some f =>
      if f.state.done then some { s with queue := s.queue ++ [Call.runCb cb fid] }
      else some (updFut s fid { f with callbacks := f.callbacks ++ [cb] })

/-- `Future.result()`.  Modelled from the spec: `InvalidStateError` when
pending, `CancelledError` when cancelled, the stored exception re-raised
(marked observed), or the stored value.  The outer `none` covers a
missing id only. -/
def futResult (s : Sys) (fid : Nat) : Option (Sys × Except Exc (Option Val)) :=
  match s.futs fid with
  | none => none
  | some f =>
      match f.state with
      | .pending => some (s, .error .invalidStateError)
      | .cancelled => some (s, .error .cancelledError)
      | .finishedE e => some (updFut s fid { f with excObserved := true }, .error e)
      | .finishedV v => some (updFut s fid { f with excObserved := true }, .ok v)

/-- `Task.__init__(coro, loop)` (`tasks.py` lines 75-82): a fresh pending
future, `_fut_waiter = None`, `_must_cancel = False`, and
`call_soon(self._step)`. -/
def taskNew (s : Sys) (p : CoroProg) : Sys × Nat :=
  let tid := s.nextId
  ({ futs := fun j => if j = tid then
        some { state := .pending, callbacks := [], excObserved := true }
      else s.futs j,
     tasks := fun j => if j = tid then
        some { coro := p, pc := 0, fut_waiter := none, must_cancel := false }
      else s.tasks j,
     queue := s.queue ++ [Call.step tid none none],
     current := s.current,
     nextId := tid + 1 }, tid)

/-- `cancel()` dispatched on an object id: `Task.cancel` (`tasks.py`
lines 173-203) when the id is a task, `Future.cancel` otherwise.
`self._fut_waiter.cancel()` dispatches virtually, so a waiter chain of
tasks recurses; the fuel bounds that chain and `none` models the
unbounded recursion a cyclic chain would produce. -/
def cancelObj : Nat → Sys → Nat → Option (Sys × Bool)
  | 0, _, _ => none
  | fuel + 1, s, id =>
      match s.tasks id with
      | none => some (futCancel s id)
      | some td =>
          match s.futs id with
          | none => none
          | some f =>
              if f.state.done then some (s, false)
              else
                match td.fut_waiter with
                | some w =>
                    match cancelObj fuel s w with
                    | none => none
                    | some (s2, true) => some (s2, true)
                    | some (s2, false) =>
                        match s2.tasks id with
                        | none => none
                        | some td2 =>
                            some (updTask s2 id { td2 with must_cancel := true }, true)
                | none => some (updTask s id { td with must_cancel := true }, true)

/-- Lines 255-261 of `_step`: register `_wakeup` as a done-callback on
the yielded future, store it as `_fut_waiter`, and — if `_must_cancel`
is still set — try to cancel the waiter, clearing the flag on success.
(The coroutine bodies of this model are pure, so the flag is always
clear here; the branch is translated nonetheless.) -/
def waitOn (fuel : Nat) (s : Sys) (tid : Nat) (fid : Nat) : Option Sys :=
  match addDoneCallback s fid (Callback.wakeup tid) with
  | none => none
  | some s1 =>
      match s1.tasks tid with
      | none => none
      | some td =>
          let s2 := updTask s1 tid { td with fut_waiter := some fid }
          if td.must_cancel then
            match cancelObj fuel s2 fid with
            | none => none
            | some (s3, true) =>
                match s3.tasks tid with
                | none => none
                | some td3 => some (updTask s3 tid { td3 with must_cancel := false })
            | some (s3, false) => some s3
          else some s2

/-- Lines 208-211 of `_step`: when `_must_cancel` is set, the exception
is coerced to a `CancelledError` and the flag is cleared.  Returns the
exception to deliver and the new flag. -/
def coerceCancel (mc : Bool) (exc : Option Exc) : Option Exc × Bool :=
  if mc then
    (if exc = some Exc.cancelledError then exc else some Exc.cancelledError,
     false)
  else (exc, mc)

/-- Lines 217-223 of `_step`: `coro.throw(exc)` when an exception is
present, else `coro.send(value)` for a non-`None` value, else
`next(coro)`. -/
def stepResumeArg (exc : Option Exc) (value : Option Val) : ResumeArg :=
  match exc with
  | some e => .throwE e
  | none =>
      match value with
      | some v => .send v
      | none => .next

/-- Lines 244-270 of `_step`: classify a yielded value.  A coroutine or
lock primitive is lifted to a fresh task which is then waited on; a
future is waited on; a bare yield re-schedules `_step`; any other value
schedules `_step` with the bad-yield `RuntimeError`. -/
def handleYield (fuel : Nat) (s1 : Sys) (tid : Nat) (td2 : TaskData) :
    YieldVal → Option Sys
  | .coro p => waitOn fuel (taskNew (updTask s1 tid td2) p).1 tid
      (taskNew (updTask s1 tid td2) p).2
  | .lockPrim p => waitOn fuel (taskNew (updTask s1 tid td2) p).1 tid
      (taskNew (updTask s1 tid td2) p).2
  | .fut fid => waitOn fuel (updTask s1 tid td2) tid fid
  | .bareYield =>
      some { (updTask s1 tid td2) with
        queue := s1.queue ++ [Call.step tid none none] }
  | .bad r =>
      some { (updTask s1 tid td2) with
        queue := s1.queue ++ [Call.step tid none (some (Exc.badYield r))] }

/-- Lines 213-215 of `_step`: clear `_fut_waiter` (setting the flag the
coercion produced) and install the task as the loop's current task. -/
def stepBegin (s : Sys) (tid : Nat) (td : TaskData) (mc : Bool) : Sys :=
  { updTask s tid { td with fut_waiter := none, must_cancel := mc } with
    current := some tid }

/-- Line 272 of `_step` (the `finally`): pop the current-task slot. -/
def popCurrent (s : Sys) : Sys := { s with current := none }

/-- `Task._step(value, exc)` (`tasks.py` lines 205-273).  `none` models
the entry assertion firing (task already done or unknown) and the
unreachable error paths.  The coroutine is resumed per lines 217-223
(throw, send or next), the outcome is classified per lines 224-270, and
the current-task slot is installed and popped around the resume. -/
def taskStep (fuel : Nat) (s : Sys) (tid : Nat) (value : Option Val)
    (exc : Option Exc) : Option Sys :=
  match s.tasks tid, s.futs tid with
  | some td, some f =>
      if f.state.done then none
      else
        let mcE := coerceCancel td.must_cancel exc
        let s1 := stepBegin s tid td mcE.2
        let s2? : Option Sys :=
          match td.coro.resume td.pc (stepResumeArg mcE.1 value) with
          | .ret v2 => setResult s1 tid v2
          | .raiseE Exc.cancelledError => some (futCancel s1 tid).1
          | .raiseE e2 => setException s1 tid e2
          | .yielded y pc2 => handleYield fuel s1 tid
              { td with pc := pc2, fut_waiter := none, must_cancel := mcE.2 } y
        match s2? with
        | none => none
        | some s2 => some (popCurrent s2)
  | _, _ => none

/-- `Task._wakeup(future)` (`tasks.py` lines 275-283): read
`future.result()` and step the task with the value or the exception. -/
def taskWakeup (fuel : Nat) (s : Sys) (tid : Nat) (fid : Nat) : Option Sys :=
  match futResult s fid with
  | none => none
  | some (s1, .error e) => taskStep fuel s1 tid none (some e)
  | some (s1, .ok v) => taskStep fuel s1 tid v none

/-- Execute one dequeued `call_soon` invocation. -/
def runCall (fuel : Nat) (s : Sys) : Call → Option Sys
  | .step tid v e => taskStep fuel s tid v e
  | .runCb (.wakeup tid) fid => taskWakeup fuel s tid fid

/-- One loop iteration: pop the head of the `call_soon` FIFO and run
it. -/
def loopTick (fuel : Nat) (s : Sys) : Option Sys :=
  match s.queue with
  | [] => some s
  | c :: rest => runCall fuel { s with queue := rest } c

/-! ### The `_step`/`_wakeup` invariant (`tasks.py` lines 37-44) -/

/-- Is this queued invocation a scheduled `_step` of task `tid`? -/
def isStepFor (tid : Nat) : Call → Bool
  | .step t _ _ => t == tid
  | _ => false

/-- Number of `_step(tid)` invocations sitting in the loop queue. -/
def stepsFor (s : Sys) (tid : Nat) : Nat := s.queue.countP (isStepFor tid)

/-- Is this callback `Task._wakeup` of task `tid`? -/
def cbFor (tid : Nat) : Callback → Bool
  | .wakeup t => t == tid

/-- Is this queued invocation a pending `_wakeup(tid)` call? -/
def isWakeupFor (tid : Nat) : Call → Bool
  | .runCb cb _ => cbFor tid cb
  | _ => false

/-- Number of pending `_wakeup(tid)` invocations in the loop queue. -/
def queuedCount (s : Sys) (tid : Nat) : Nat := s.queue.countP (isWakeupFor tid)

/-- `_wakeup` of task `tid` is registered on no future at all. -/
def notRegistered (s : Sys) (tid : Nat) : Prop :=
  ∀ fid f, s.futs fid = some f → f.callbacks.countP (cbFor tid) = 0

/-- `_wakeup` of task `tid` is registered exactly once, on future `w`,
and nowhere else. -/
def regOnceAt (s : Sys) (tid w : Nat) : Prop :=
  (∃ f, s.futs w = some f ∧ f.callbacks.countP (cbFor tid) = 1)
  ∧ ∀ fid f, s.futs fid = some f → fid ≠ w → f.callbacks.countP (cbFor tid) = 0

/-- Exactly one `_wakeup(tid)` invocation is pending in the queue, and it
carries future `w`. -/
def queuedOnceAt (s : Sys) (tid w : Nat) : Prop :=
  queuedCount s tid = 1
  ∧ ∀ c ∈ s.queue, isWakeupFor tid c = true → c = Call.runCb (.wakeup tid) w

/-- First form of the invariant: `_fut_waiter is None` and `_step()` is
scheduled (exactly once), with no `_wakeup` association anywhere. -/
def StepForm (s : Sys) (tid : Nat) (td : TaskData) : Prop :=
  td.fut_waiter = none ∧ stepsFor s tid = 1
  ∧ notRegistered s tid ∧ queuedCount s tid = 0

/-- Second form: `_fut_waiter` is some future, `_step()` is not
scheduled, and `_wakeup` is associated with that future exactly once —
registered on it, or (once the future completed) sitting in the loop
queue as a pending invocation. -/
def WaiterForm (s : Sys) (tid : Nat) (td : TaskData) : Prop :=
  ∃ w, td.fut_waiter = some w ∧ stepsFor s tid = 0
    ∧ ((regOnceAt s tid w ∧ queuedCount s tid = 0)
        ∨ (notRegistered s tid ∧ queuedOnceAt s tid w))

/-- The key invariant of `tasks.py` lines 37-44 for one task: while the
task is not done, exactly one of the two forms holds. -/
def TaskInv (s : Sys) (tid : Nat) : Prop :=
  ∀ td f, s.tasks tid = some td → s.futs tid = some f →
    f.state = .pending → Xor' (StepForm s tid td) (WaiterForm s tid td)

/-- Well-formedness: allocated ids are below the id supply, and ids not
yet allocated have no scheduled steps, pending wakeups or
registrations. -/
def WF (s : Sys) : Prop :=
  (∀ id, s.tasks id ≠ none → id < s.nextId)
  ∧ (∀ id, s.futs id ≠ none → id < s.nextId)
  ∧ ∀ t, s.nextId ≤ t →
      stepsFor s t = 0 ∧ queuedCount s t = 0 ∧ notRegistered s t

/-- The global invariant: well-formedness plus the `_step`/`_wakeup`
invariant of every task. -/
def SysInv (s : Sys) : Prop := WF s ∧ ∀ t, TaskInv s t

/-! ### Concrete fixtures -/

/-- A coroutine probe: it returns `1` exactly when it is resumed by
throwing `CancelledError` into it, and `0` on any other resumption. -/
def probeCancel : CoroProg :=
  CoroProg.mk fun _ arg =>
    match arg with
    | ResumeArg.throwE Exc.cancelledError => CoroResult.ret (some 1)
    | _ => CoroResult.ret (some 0)

/-- The empty system: no futures, no tasks, an empty `call_soon` queue. -/
def sysEmpty : Sys :=
  { futs := fun _ => none, tasks := fun _ => none, queue := [],
    current := none, nextId := 0 }

/-- The system holding exactly one fresh task (id `0`) running the
probe coroutine. -/
def sysProbe : Sys := (taskNew sysEmpty probeCancel).1

/-- The probe task's initial `TaskData`. -/
def tdProbe : TaskData :=
  { coro := probeCancel, pc := 0, fut_waiter := none, must_cancel := false }

/-- A fresh pending task future. -/
def futFresh : Fut :=
  { state := FutState.pending, callbacks := [], excObserved := true }

end Core

/-! ## Theorems -/

/-- Cancelling the `_wait` timeout handle only touches the handle flag:
the children are untouched. -/
theorem cancelTimeoutHandle_children (st : WaitC.WSt) :
    (WaitC.cancelTimeoutHandle st).children = st.children := by
  unfold WaitC.cancelTimeoutHandle
  split <;> rfl

/-- Cancelling the `_wait` timeout handle leaves the waiter unchanged. -/
theorem cancelTimeoutHandle_waiter (st : WaitC.WSt) :
    (WaitC.cancelTimeoutHandle st).waiter = st.waiter := by
  unfold WaitC.cancelTimeoutHandle
  split <;> rfl

/-- C8: `async` (`ensure_task`) is an idempotent lifting: a `Future` on
the given loop (or with no loop argument) is returned itself; a coroutine
is wrapped in a new `Task` on that loop; a `Future` tied to a different
loop raises `ValueError`; a value that is neither raises `TypeError`. -/
theorem ensure_task_idempotent_lifting :
    (∀ fid l, EnsureTask.async (.fut fid l) (some l) = .sameFuture fid)
    ∧ (∀ fid l, EnsureTask.async (.fut fid l) none = .sameFuture fid)
    ∧ (∀ c l, EnsureTask.async (.coro c) l = .newTask c l)
    ∧ (∀ fid l l', l' ≠ l →
        EnsureTask.async (.fut fid l) (some l') = .valueError)
    ∧ (∀ n l, EnsureTask.async (.other n) l = .typeError) := by
  refine ⟨fun fid l => ?_, fun fid l => ?_, fun c l => ?_,
    fun fid l l' h => ?_, fun n l => ?_⟩ <;>
    simp [EnsureTask.async]
  exact h

/-- Witness for C8 at concrete inputs, discharging the cross-loop
hypothesis. -/
theorem ensure_task_idempotent_lifting_witness :
    EnsureTask.async (.fut 3 0) (some 0) = .sameFuture 3
    ∧ EnsureTask.async (.fut 3 0) (some 1) = .valueError :=
  ⟨ensure_task_idempotent_lifting.1 3 0,
   ensure_task_idempotent_lifting.2.2.2.1 3 0 1 (by decide)⟩

/-- C9: when the argument of `shield` lifts to an already terminal inner
future, `shield` returns that inner future itself (the shortcut of
`tasks.py` lines 616-618), so no outer wrapper is created. -/
theorem shield_done_inner_shortcut (inner : Shield.SFut)
    (h : inner.state.done = true) :
    Shield.shieldDispatch inner = .innerItself := by
  unfold Shield.shieldDispatch
  simp [h]

/-- Witness for C9: a finished inner future is returned itself. -/
theorem shield_done_inner_shortcut_witness :
    Shield.shieldDispatch { state := .finishedV 7, excObserved := true }
      = .innerItself :=
  shield_done_inner_shortcut _ (by decide)

/-- C5: cancelling the outer future of a `shield` never changes the inner
future (in particular it never transitions the inner to Cancelled, and
the inner may remain not-done); the inner becoming Cancelled by other
means cancels the outer through the done-callback; and the inner's normal
result or exception is mirrored onto a still-pending outer. -/
theorem shield_cancellation_semantics (st : Shield.SSt) :
    ((Shield.outerCancel st).1.inner = st.inner)
    ∧ (st.inner.state = .cancelled → st.outer.state = .pending →
        (Shield.shieldDoneCallback st).outer.state = .cancelled)
    ∧ (∀ v, st.inner.state = .finishedV v → st.outer.state = .pending →
        (Shield.shieldDoneCallback st).outer.state = .finishedV v)
    ∧ (∀ e, st.inner.state = .finishedE e → st.outer.state = .pending →
        (Shield.shieldDoneCallback st).outer.state = .finishedE e)
    ∧ (st.outer.state = .cancelled →
        (Shield.shieldDoneCallback st).inner.state = st.inner.state) := by
  refine ⟨?_, fun hi ho => ?_, fun v hi ho => ?_, fun e hi ho => ?_,
    fun ho => ?_⟩
  · unfold Shield.outerCancel
    split <;> rfl
  · simp [Shield.shieldDoneCallback, ho, hi, Shield.outerCancel,
      FutState.done]
  · simp [Shield.shieldDoneCallback, ho, hi]
  · simp [Shield.shieldDoneCallback, ho, hi]
  · simp [Shield.shieldDoneCallback, ho, Shield.markInnerRetrieved]

/-- Witness for C5 at a concrete shield state: inner pending, outer
pending; cancelling the outer leaves the inner pending, and on a
cancelled inner the callback cancels the outer. -/
theorem shield_cancellation_semantics_witness :
    ((Shield.outerCancel
        (Shield.shieldInit { state := .pending, excObserved := true })).1.inner
      = { state := .pending, excObserved := true })
    ∧ (Shield.shieldDoneCallback
        { inner := { state := .cancelled, excObserved := true },
          outer := { state := .pending, excObserved := true } }).outer.state
      = .cancelled := by
  constructor
  · exact (shield_cancellation_semantics
      (Shield.shieldInit { state := .pending, excObserved := true })).1
  · exact (shield_cancellation_semantics
      { inner := { state := .cancelled, excObserved := true },
        outer := { state := .pending, excObserved := true } }).2.1
      (by decide) (by decide)

/-- C3 counterexample: with `return_exceptions=False`, a child that
completes Cancelled is NOT reported as a `CancelledError` in its result
slot — the slot is never written (`_done_callback` returns right after
`outer.set_exception(res)`, before reaching `results[i] = res`); the
aggregate instead finishes with a `CancelledError` exception. -/
theorem gather_child_cancel_slot_counterexample :
    (Gather.doneCallback false 1 0
        { outer := .pending, children := [{ state := .cancelled, excObserved := true }],
          results := [none], nfinished := 0 }).results = [none]
    ∧ (Gather.doneCallback false 1 0
        { outer := .pending, children := [{ state := .cancelled, excObserved := true }],
          results := [none], nfinished := 0 }).results[0]?
        ≠ some (some (.err .cancelledError))
    ∧ (Gather.doneCallback false 1 0
        { outer := .pending, children := [{ state := .cancelled, excObserved := true }],
          results := [none], nfinished := 0 }).outer
        = .finishedE .cancelledError := by
  decide

/-- C3 (amended): for `gather` with `return_exceptions=False`, the first
child finishing with an exception immediately propagates that exception
to the still-pending aggregate; a child completing in the Cancelled state
makes the aggregate finish with a `CancelledError` exception — its result
slot is not written — and the aggregate is not transitioned to the
Cancelled state. -/
theorem gather_no_return_exceptions_semantics (st : Gather.GSt)
    (n i : Nat) (fut : Gather.GFut)
    (hc : st.children[i]? = some fut) (ho : st.outer = .pending) :
    (∀ e, fut.state = .finishedE e →
        (Gather.doneCallback false n i st).outer = .finishedE e)
    ∧ (fut.state = .cancelled →
        (Gather.doneCallback false n i st).outer = .finishedE .cancelledError
        ∧ (Gather.doneCallback false n i st).results = st.results
        ∧ (Gather.doneCallback false n i st).outer ≠ .cancelled) := by
  refine ⟨fun e he => ?_, fun hcst => ⟨?_, ?_, ?_⟩⟩ <;>
    simp [Gather.doneCallback, hc, ho, *]

/-- Witness for C3 at a concrete state: a failed first child propagates
its exception immediately, a cancelled child yields a `CancelledError`
exception on the aggregate without cancelling it. -/
theorem gather_no_return_exceptions_semantics_witness :
    (Gather.doneCallback false 2 0
        { outer := .pending,
          children := [{ state := .finishedE (.generic 5), excObserved := false },
                       { state := .pending, excObserved := true }],
          results := [none, none], nfinished := 0 }).outer
      = .finishedE (.generic 5)
    ∧ (Gather.doneCallback false 2 1
        { outer := .pending,
          children := [{ state := .pending, excObserved := true },
                       { state := .cancelled, excObserved := true }],
          results := [none, none], nfinished := 0 }).outer
      ≠ .cancelled := by
  constructor
  · exact (gather_no_return_exceptions_semantics
      { outer := .pending,
        children := [{ state := .finishedE (.generic 5), excObserved := false },
                     { state := .pending, excObserved := true }],
        results := [none, none], nfinished := 0 }
      2 0 { state := .finishedE (.generic 5), excObserved := false }
      (by decide) (by decide)).1 (.generic 5) (by decide)
  · exact ((gather_no_return_exceptions_semantics
      { outer := .pending,
        children := [{ state := .pending, excObserved := true },
                     { state := .cancelled, excObserved := true }],
        results := [none, none], nfinished := 0 }
      2 1 { state := .cancelled, excObserved := true }
      (by decide) (by decide)).2 (by decide)).2.2

/-- C10: once the aggregate is no longer pending, `_done_callback` for a
child that completed with a stored exception retrieves that exception
(marks it observed) and changes nothing else, so a late child failure
never leaves an unobserved stored exception. -/
theorem gather_late_child_exception_observed (st : Gather.GSt)
    (rex : Bool) (n i : Nat) (fut : Gather.GFut) (e : Exc)
    (hc : st.children[i]? = some fut) (ho : st.outer ≠ .pending)
    (hx : fut.state = .finishedE e) :
    (Gather.doneCallback rex n i st).children[i]?
      = some { fut with excObserved := true }
    ∧ (Gather.doneCallback rex n i st).outer = st.outer
    ∧ (Gather.doneCallback rex n i st).results = st.results := by
  obtain ⟨hlen, -⟩ := List.getElem?_eq_some.mp hc
  refine ⟨?_, ?_, ?_⟩ <;>
    simp [Gather.doneCallback, hc, ho, hx, FutState.excStored,
      List.getElem?_set_eq_of_lt _ hlen]

/-- Witness for C10: a late failing child gets its exception marked
observed while the already-finished aggregate is untouched. -/
theorem gather_late_child_exception_observed_witness :
    (Gather.doneCallback false 1 0
        { outer := .finishedE (.generic 1),
          children := [{ state := .finishedE (.generic 9), excObserved := false }],
          results := [none], nfinished := 0 }).children[0]?
      = some { state := .finishedE (.generic 9), excObserved := true } :=
  (gather_late_child_exception_observed
    { outer := .finishedE (.generic 1),
      children := [{ state := .finishedE (.generic 9), excObserved := false }],
      results := [none], nfinished := 0 }
    false 1 0 { state := .finishedE (.generic 9), excObserved := false } (.generic 9)
    (by decide) (by decide) (by decide)).1

/-- C6: `wait_for` with a non-`None` timeout: when the timer fires before
the lifted task completes, resuming raises `TimeoutError`, the inner
future has been cancelled (`fut.cancel()` invoked, a pending inner
transitions to Cancelled) and the timer handle is cancelled; when the
task completes first (its done-callback releases the waiter with `True`),
the timer handle is cancelled, no cancel request is made, and the task's
result or exception propagates to the caller via `fut.result()`. -/
theorem wait_for_timeout_semantics (fut0 : FutState Nat) :
    (WaitFor.waitForResume (WaitFor.timerFire (WaitFor.waitForSetup fut0))
        = some ({ waiter := .finishedV false,
                  fut := if fut0.done then fut0 else .cancelled,
                  timeoutHandleCancelled := true, cbRegistered := false,
                  futCancelRequested := true }, .error .timeoutError))
    ∧ (WaitFor.waitForResume (WaitFor.innerDoneCb (WaitFor.waitForSetup fut0))
        = some ({ waiter := .finishedV true, fut := fut0,
                  timeoutHandleCancelled := true, cbRegistered := true,
                  futCancelRequested := false }, fut0.resultExcept)) :=
  ⟨rfl, rfl⟩

/-- C4: `_wait` never raises `TimeoutError` of its own: any such outcome
could only replay a `TimeoutError` already stored on the waiter, and the
waiter's only writers (`_release_waiter` and `_on_completion`) use
`set_result`, never `set_exception`.  When the timeout fires while the
waiter is still pending, `_wait` returns the `(done, pending)` index
partition with the not-yet-done children in `pending`, and no step of
`_wait` (completion callback, timer, finish) ever changes a child's
state — in particular none cancels a child. -/
theorem wait_never_raises_timeout (st : WaitC.WSt) :
    (∀ st' r, WaitC.waitFinish st = some (st', r) →
        (r = .error .timeoutError → st.waiter = .finishedE .timeoutError)
        ∧ st'.children = st.children)
    ∧ (st.waiter = .pending →
        ∃ st', WaitC.waitFinish (WaitC.timerFire st) = some (st',
            .ok ((List.range st.children.length).filter
                  (fun i => (st.children.getD i .pending).done),
                 (List.range st.children.length).filter
                  (fun i => !(st.children.getD i .pending).done)))
          ∧ st'.children = st.children)
    ∧ (∀ rw i, (WaitC.onCompletion rw i st).children = st.children)
    ∧ ((WaitC.timerFire st).children = st.children)
    ∧ (∀ rw i, (WaitC.onCompletion rw i st).waiter = st.waiter
        ∨ (WaitC.onCompletion rw i st).waiter = .finishedV false)
    ∧ ((WaitC.timerFire st).waiter = st.waiter
        ∨ (WaitC.timerFire st).waiter = .finishedV true) := by
  refine ⟨fun st' r h => ?_, fun hw => ?_, fun rw i => ?_, ?_,
    fun rw i => ?_, ?_⟩
  · cases hwt : st.waiter with
    | pending => simp [WaitC.waitFinish, hwt] at h
    | finishedV b =>
        simp only [WaitC.waitFinish, hwt, Option.some.injEq,
          Prod.mk.injEq] at h
        refine ⟨fun hr => ?_, ?_⟩
        · rw [← h.2] at hr
          exact Except.noConfusion hr
        · rw [← h.1, cancelTimeoutHandle_children]
    | finishedE e =>
        simp only [WaitC.waitFinish, hwt, Option.some.injEq,
          Prod.mk.injEq] at h
        refine ⟨fun hr => ?_, ?_⟩
        · rw [← h.2] at hr
          injection hr with he
          rw [he]
        · rw [← h.1, cancelTimeoutHandle_children]
    | cancelled =>
        simp only [WaitC.waitFinish, hwt, Option.some.injEq,
          Prod.mk.injEq] at h
        refine ⟨fun hr => ?_, ?_⟩
        · rw [← h.2] at hr
          injection hr with he
          exact absurd he (by decide)
        · rw [← h.1, cancelTimeoutHandle_children]
  · refine ⟨WaitC.cancelTimeoutHandle { st with waiter := .finishedV true },
      ?_, ?_⟩
    · simp [WaitC.waitFinish, WaitC.timerFire, hw, FutState.done]
    · rw [cancelTimeoutHandle_children]
  · unfold WaitC.onCompletion
    cases hc : st.children[i]? with
    | none => rfl
    | some f =>
        by_cases hcond : (st.counter ≤ 1
            ∨ rw = WaitC.ReturnWhen.firstCompleted
            ∨ (rw = WaitC.ReturnWhen.firstException
                ∧ (¬f = FutState.cancelled ∧ ¬f.excStored = none)))
        · simp [hcond, cancelTimeoutHandle_children]
        · simp [hcond]
  · rfl
  · unfold WaitC.onCompletion
    cases hc : st.children[i]? with
    | none => exact Or.inl rfl
    | some f =>
        by_cases hcond : (st.counter ≤ 1
            ∨ rw = WaitC.ReturnWhen.firstCompleted
            ∨ (rw = WaitC.ReturnWhen.firstException
                ∧ (¬f = FutState.cancelled ∧ ¬f.excStored = none)))
        · by_cases hd : st.waiter.done = true
          · exact Or.inl (by simp [hcond, hd, cancelTimeoutHandle_waiter])
          · exact Or.inr (by simp [hcond, hd, cancelTimeoutHandle_waiter])
        · exact Or.inl (by simp [hcond])
  · unfold WaitC.timerFire
    by_cases hd : st.waiter.done = true
    · exact Or.inl (by simp [hd])
    · exact Or.inr (by simp [hd])

/-- Witness for C4 at a concrete `_wait` call: two children, one done and
one still pending, timeout fires; `_wait` returns the done child in the
first set and the pending child uncancelled in the second. -/
theorem wait_never_raises_timeout_witness :
    ∃ st', WaitC.waitFinish (WaitC.timerFire
        (WaitC.waitSetup [.finishedV 5, .pending] true))
      = some (st', .ok ([0], [1]))
    ∧ st'.children = [.finishedV 5, .pending] := by
  obtain ⟨st', h1, h2⟩ :=
    (wait_never_raises_timeout
      (WaitC.waitSetup [.finishedV 5, .pending] true)).2.1 rfl
  refine ⟨st', ?_, by simpa [WaitC.waitSetup] using h2⟩
  have hpay :
      ((List.range ((WaitC.waitSetup [FutState.finishedV 5, FutState.pending]
            true).children.length)).filter
        (fun i => ((WaitC.waitSetup [FutState.finishedV 5, FutState.pending]
            true).children.getD i .pending).done),
       (List.range ((WaitC.waitSetup [FutState.finishedV 5, FutState.pending]
            true).children.length)).filter
        (fun i => !((WaitC.waitSetup [FutState.finishedV 5, FutState.pending]
            true).children.getD i .pending).done))
      = (([0], [1]) : List Nat × List Nat) := by decide
  rw [← hpay]
  exact h1

/-- `_on_completion` when `todo` is non-empty: the completed future is
appended to the queue, erased from `todo`, and the future states are
untouched. -/
theorem onCompletion_components (f : Nat) (st : AsCompleted.ASt)
    (h : ¬st.todo = []) :
    (AsCompleted.onCompletion f st).doneQ = st.doneQ ++ [some f]
    ∧ (AsCompleted.onCompletion f st).todo = st.todo.erase f
    ∧ (AsCompleted.onCompletion f st).futs = st.futs := by
  unfold AsCompleted.onCompletion
  simp only [h, if_false]
  split <;> exact ⟨rfl, rfl, rfl⟩

/-- Distinct completions of outstanding futures are queued in completion
order, and the future states are untouched. -/
theorem runCompletions_spec (l : List Nat) :
    ∀ st : AsCompleted.ASt, (∀ f ∈ l, f ∈ st.todo) → l.Nodup →
      (AsCompleted.runCompletions l st).doneQ = st.doneQ ++ l.map some
      ∧ (AsCompleted.runCompletions l st).futs = st.futs := by
  induction l with
  | nil =>
      intro st _ _
      simp [AsCompleted.runCompletions]
  | cons f t ih =>
      intro st hsub hnd
      have hf : f ∈ st.todo := hsub f (List.mem_cons_self f t)
      have hne : ¬st.todo = [] := by
        intro h0
        rw [h0] at hf
        cases hf
      obtain ⟨hdq, htd, hfu⟩ := onCompletion_components f st hne
      have hsub2 : ∀ g ∈ t, g ∈ (AsCompleted.onCompletion f st).todo := by
        intro g hg
        rw [htd]
        have hgne : g ≠ f := by
          intro hgf
          subst hgf
          exact (List.nodup_cons.mp hnd).1 hg
        exact (List.mem_erase_of_ne hgne).mpr (hsub g (List.mem_cons_of_mem f hg))
      have hnd2 : t.Nodup := (List.nodup_cons.mp hnd).2
      have hrun : AsCompleted.runCompletions (f :: t) st
          = AsCompleted.runCompletions t (AsCompleted.onCompletion f st) := rfl
      rw [hrun]
      obtain ⟨ih1, ih2⟩ := ih (AsCompleted.onCompletion f st) hsub2 hnd2
      constructor
      · rw [ih1, hdq]
        simp
      · rw [ih2, hfu]

/-- C7 counterexample: for an input collection holding the same future
twice, `as_completed` yields one awaitable, not `|fs| = 2` of them
(`todo = set(async(f) for f in set(fs))` deduplicates and the generator
runs `range(len(todo))`). -/
theorem as_completed_count_counterexample :
    AsCompleted.numAwaitables [0, 0] = 1
    ∧ ([0, 0] : List Nat).length = 2
    ∧ AsCompleted.numAwaitables [0, 0] ≠ ([0, 0] : List Nat).length := by
  decide

/-- C7 (amended): `as_completed(fs, timeout)` yields exactly one
awaitable per distinct element of `fs`; distinct futures completing in
some order are queued in that order, and awaiting pops the queue head, so
the i-th awaited awaitable yields the result of the i-th future to
complete; when the timeout fires first, `_on_timeout` queues a dummy for
every outstanding future and awaiting a dummy raises `TimeoutError`. -/
theorem as_completed_semantics :
    (∀ fs : List Nat, AsCompleted.numAwaitables fs = fs.dedup.length)
    ∧ (∀ (l : List Nat) (st : AsCompleted.ASt),
        (∀ f ∈ l, f ∈ st.todo) → l.Nodup → st.doneQ = [] →
        (AsCompleted.runCompletions l st).doneQ = l.map some
        ∧ (AsCompleted.runCompletions l st).futs = st.futs)
    ∧ (∀ (st : AsCompleted.ASt) (e : Option Nat) (rest : List (Option Nat)),
        st.doneQ = e :: rest →
        AsCompleted.waitForOne st
          = some ({ st with doneQ := rest },
                  AsCompleted.queueEntryResult st.futs e))
    ∧ (∀ st : AsCompleted.ASt,
        (AsCompleted.onTimeout st).doneQ
          = st.doneQ ++ st.todo.map (fun _ => (none : Option Nat))
        ∧ (AsCompleted.onTimeout st).todo = [])
    ∧ (∀ futs : Nat → FutState Nat,
        AsCompleted.queueEntryResult futs none = .error .timeoutError)
    ∧ (∀ (futs : Nat → FutState Nat) (f : Nat),
        AsCompleted.queueEntryResult futs (some f) = (futs f).resultExcept) := by
  refine ⟨fun fs => rfl, fun l st hsub hnd hdq => ?_,
    fun st e rest h => ?_, fun st => ⟨rfl, rfl⟩, fun futs => rfl,
    fun futs f => rfl⟩
  · obtain ⟨h1, h2⟩ := runCompletions_spec l st hsub hnd
    refine ⟨?_, h2⟩
    rw [h1, hdq]
    rfl
  · unfold AsCompleted.waitForOne
    rw [h]

/-- Witness for C7 (amended) at concrete inputs: completions of futures
2 then 1 are awaited in exactly that order. -/
theorem as_completed_semantics_witness :
    (AsCompleted.runCompletions [2, 1]
        (AsCompleted.asCompletedInit [1, 2, 3] (fun _ => .pending) false)).doneQ
      = [some 2, some 1]
    ∧ AsCompleted.waitForOne
        { todo := [], doneQ := [none], futs := fun _ => FutState.pending,
          timeoutHandleCancelled := false, hasTimeout := true }
      = some ({ todo := [], doneQ := [], futs := fun _ => FutState.pending,
                timeoutHandleCancelled := false, hasTimeout := true },
              .error .timeoutError) := by
  constructor
  · exact (as_completed_semantics.2.1 [2, 1]
      (AsCompleted.asCompletedInit [1, 2, 3] (fun _ => .pending) false)
      (by decide) (by decide) rfl).1
  · exact as_completed_semantics.2.2.1
      { todo := [], doneQ := [none], futs := fun _ => FutState.pending,
        timeoutHandleCancelled := false, hasTimeout := true }
      none [] rfl

namespace Core

/-- Scheduled-callback invocations are never scheduled steps. -/
theorem countP_runCbs (t fid : Nat) (cbs : List Callback) :
    (cbs.map (fun cb => Call.runCb cb fid)).countP (isStepFor t) = 0 := by
  rw [List.countP_map]
  exact List.countP_eq_zero.mpr (fun cb _ => by simp [Function.comp, isStepFor])

/-- Counting pending wakeups among freshly enqueued callback invocations
counts the wakeups among the callbacks. -/
theorem countP_runCbs_wakeup (t fid : Nat) (cbs : List Callback) :
    (cbs.map (fun cb => Call.runCb cb fid)).countP (isWakeupFor t)
      = cbs.countP (cbFor t) := by
  rw [List.countP_map]
  have hcomp : (isWakeupFor t ∘ fun cb => Call.runCb cb fid) = cbFor t := by
    funext cb
    rfl
  rw [hcomp]

theorem completeFut_tasks (s : Sys) (fid : Nat) (f : Fut)
    (ns : FutState (Option Val)) (obs : Bool) :
    (completeFut s fid f ns obs).tasks = s.tasks := rfl

theorem completeFut_nextId (s : Sys) (fid : Nat) (f : Fut)
    (ns : FutState (Option Val)) (obs : Bool) :
    (completeFut s fid f ns obs).nextId = s.nextId := rfl

theorem completeFut_queue (s : Sys) (fid : Nat) (f : Fut)
    (ns : FutState (Option Val)) (obs : Bool) :
    (completeFut s fid f ns obs).queue
      = s.queue ++ f.callbacks.map (fun cb => Call.runCb cb fid) := rfl

theorem completeFut_futs_self (s : Sys) (fid : Nat) (f : Fut)
    (ns : FutState (Option Val)) (obs : Bool) :
    (completeFut s fid f ns obs).futs fid
      = some { state := ns, callbacks := [], excObserved := obs } := by
  simp [completeFut, updFut]

theorem completeFut_futs_other (s : Sys) (fid : Nat) (f : Fut)
    (ns : FutState (Option Val)) (obs : Bool) (j : Nat) (h : j ≠ fid) :
    (completeFut s fid f ns obs).futs j = s.futs j := by
  simp [completeFut, updFut, h]

theorem stepsFor_completeFut (s : Sys) (fid : Nat) (f : Fut)
    (ns : FutState (Option Val)) (obs : Bool) (t : Nat) :
    stepsFor (completeFut s fid f ns obs) t = stepsFor s t := by
  unfold stepsFor
  rw [completeFut_queue, List.countP_append, countP_runCbs, Nat.add_zero]

theorem queuedCount_completeFut (s : Sys) (fid : Nat) (f : Fut)
    (ns : FutState (Option Val)) (obs : Bool) (t : Nat) :
    queuedCount (completeFut s fid f ns obs) t
      = queuedCount s t + f.callbacks.countP (cbFor t) := by
  unfold queuedCount
  rw [completeFut_queue, List.countP_append, countP_runCbs_wakeup]

/-- Completing a future registers no new wakeups. -/
theorem notRegistered_completeFut (s : Sys) (fid : Nat) (f : Fut)
    (ns : FutState (Option Val)) (obs : Bool) (t : Nat)
    (h : notRegistered s t) : notRegistered (completeFut s fid f ns obs) t := by
  intro j fj hj
  by_cases hjf : j = fid
  · subst hjf
    rw [completeFut_futs_self] at hj
    injection hj with hfj
    rw [← hfj]
    simp
  · rw [completeFut_futs_other s fid f ns obs j hjf] at hj
    exact h j fj hj

/-- Completing a future preserves a task's unique wakeup association:
a registration on the completed future moves into the queue, anything
else is untouched. -/
theorem assoc_completeFut (s : Sys) (fid : Nat) (f : Fut)
    (ns : FutState (Option Val)) (obs : Bool) (t w : Nat)
    (hf : s.futs fid = some f)
    (h : (regOnceAt s t w ∧ queuedCount s t = 0)
        ∨ (notRegistered s t ∧ queuedOnceAt s t w)) :
    (regOnceAt (completeFut s fid f ns obs) t w
        ∧ queuedCount (completeFut s fid f ns obs) t = 0)
    ∨ (notRegistered (completeFut s fid f ns obs) t
        ∧ queuedOnceAt (completeFut s fid f ns obs) t w) := by
  rcases h with ⟨hreg, hq⟩ | ⟨hnr, hqo⟩
  · obtain ⟨⟨f0, hf0, hcnt⟩, helse⟩ := hreg
    by_cases hwf2 : fid = w
    · subst hwf2
      right
      rw [hf] at hf0
      injection hf0 with hff
      rw [← hff] at hcnt
      refine ⟨?_, ?_, ?_⟩
      · intro j fj hj
        by_cases hjf : j = fid
        · subst hjf
          rw [completeFut_futs_self] at hj
          injection hj with hfj
          rw [← hfj]
          simp
        · rw [completeFut_futs_other s fid f ns obs j hjf] at hj
          exact helse j fj hj hjf
      · rw [queuedCount_completeFut, hq, hcnt]
      · intro c hc hcw
        rw [completeFut_queue] at hc
        rcases List.mem_append.mp hc with hcq | hcm
        · exact absurd hcw (by simpa using List.countP_eq_zero.mp hq c hcq)
        · obtain ⟨cb, hcb, hceq⟩ := List.mem_map.mp hcm
          cases cb with
          | wakeup u =>
              rw [← hceq] at hcw
              have hut : (u == t) = true := hcw
              have hut2 : u = t := by simpa using hut
              rw [← hceq, hut2]
    · left
      have hwfid : w ≠ fid := fun hh => hwf2 hh.symm
      refine ⟨⟨⟨f0, ?_, hcnt⟩, ?_⟩, ?_⟩
      · rw [completeFut_futs_other s fid f ns obs w hwfid]
        exact hf0
      · intro j fj hj hjw
        by_cases hjf : j = fid
        · subst hjf
          rw [completeFut_futs_self] at hj
          injection hj with hfj
          rw [← hfj]
          simp
        · rw [completeFut_futs_other s fid f ns obs j hjf] at hj
          exact helse j fj hj hjw
      · rw [queuedCount_completeFut, hq, helse fid f hf hwf2]
  · right
    have hcnt0 : f.callbacks.countP (cbFor t) = 0 := hnr fid f hf
    refine ⟨notRegistered_completeFut s fid f ns obs t hnr, ?_, ?_⟩
    · rw [queuedCount_completeFut, hqo.1, hcnt0]
    · intro c hc hcw
      rw [completeFut_queue] at hc
      rcases List.mem_append.mp hc with hcq | hcm
      · exact hqo.2 c hcq hcw
      · exfalso
        obtain ⟨cb, hcb, hceq⟩ := List.mem_map.mp hcm
        rw [← hceq] at hcw
        have : cbFor t cb = true := hcw
        exact absurd this (by simpa using List.countP_eq_zero.mp hcnt0 cb hcb)

end Core

namespace Core

/-- The two invariant forms exclude each other through `_fut_waiter`. -/
theorem stepForm_not_waiterForm (s : Sys) (tid : Nat) (td : TaskData)
    (h : StepForm s tid td) : ¬WaiterForm s tid td := by
  rintro ⟨w, hw, -⟩
  rw [h.1] at hw
  cases hw

theorem waiterForm_not_stepForm (s : Sys) (tid : Nat) (td : TaskData)
    (h : WaiterForm s tid td) : ¬StepForm s tid td := by
  intro hs
  obtain ⟨w, hw, -⟩ := h
  rw [hs.1] at hw
  cases hw

theorem xor_of_stepForm (s : Sys) (tid : Nat) (td : TaskData)
    (h : StepForm s tid td) : Xor' (StepForm s tid td) (WaiterForm s tid td) :=
  Or.inl ⟨h, stepForm_not_waiterForm s tid td h⟩

theorem xor_of_waiterForm (s : Sys) (tid : Nat) (td : TaskData)
    (h : WaiterForm s tid td) : Xor' (StepForm s tid td) (WaiterForm s tid td) :=
  Or.inr ⟨h, waiterForm_not_stepForm s tid td h⟩

/-- A task with a scheduled step is in step form. -/
theorem stepForm_of_xor (s : Sys) (tid : Nat) (td : TaskData)
    (hx : Xor' (StepForm s tid td) (WaiterForm s tid td))
    (h1 : stepsFor s tid ≠ 0) : StepForm s tid td := by
  rcases hx with ⟨hA, -⟩ | ⟨hB, -⟩
  · exact hA
  · obtain ⟨w, hw, h0, -⟩ := hB
    exact absurd h0 h1

/-- A task with a pending wakeup invocation is in waiter form, with the
wakeup queued. -/
theorem waiterQueued_of_xor (s : Sys) (tid : Nat) (td : TaskData)
    (hx : Xor' (StepForm s tid td) (WaiterForm s tid td))
    (h1 : queuedCount s tid ≠ 0) :
    ∃ w, td.fut_waiter = some w ∧ stepsFor s tid = 0
      ∧ notRegistered s tid ∧ queuedOnceAt s tid w := by
  rcases hx with ⟨hA, -⟩ | ⟨hB, -⟩
  · exact absurd hA.2.2.2 h1
  · obtain ⟨w, hw, h0, hassoc⟩ := hB
    rcases hassoc with ⟨hr, hq0⟩ | ⟨hnr, hqo⟩
    · exact absurd hq0 h1
    · exact ⟨w, hw, h0, hnr, hqo⟩

/-- Transfer of the per-task invariant along a state change that leaves
the task's data, its step and wakeup counts, its registration counts and
(up to shrinking) the queued wakeups unchanged. -/
theorem TaskInv_transfer (s s2 : Sys) (t : Nat)
    (htask : s2.tasks t = s.tasks t)
    (hfutT : (s2.futs t).map (fun f => f.state) = (s.futs t).map (fun f => f.state))
    (hsteps : stepsFor s2 t = stepsFor s t)
    (hqc : queuedCount s2 t = queuedCount s t)
    (hfuts : ∀ j, (s2.futs j).map (fun f => f.callbacks.countP (cbFor t))
            = (s.futs j).map (fun f => f.callbacks.countP (cbFor t))
        ∨ (s.futs j = none
            ∧ ∀ f, s2.futs j = some f → f.callbacks.countP (cbFor t) = 0))
    (hqmem : ∀ c ∈ s2.queue, isWakeupFor t c = true → c ∈ s.queue)
    (h : TaskInv s t) : TaskInv s2 t := by
  have hnrT : notRegistered s t → notRegistered s2 t := by
    intro hnr j fj hj
    rcases hfuts j with heq | ⟨hold, hnew⟩
    · rw [hj] at heq
      cases hf0j : s.futs j with
      | none => rw [hf0j] at heq; simp at heq
      | some f0j =>
          rw [hf0j] at heq
          simp only [Option.map_some'] at heq
          injection heq with heq2
          rw [heq2]
          exact hnr j f0j hf0j
    · exact hnew fj hj
  have hregT : ∀ w, regOnceAt s t w → regOnceAt s2 t w := by
    intro w ⟨⟨f0, hf0, hcnt⟩, helse⟩
    constructor
    · rcases hfuts w with heq | ⟨hold, hnew⟩
      · rw [hf0] at heq
        cases hfw : s2.futs w with
        | none => rw [hfw] at heq; simp at heq
        | some fw =>
            rw [hfw] at heq
            simp only [Option.map_some'] at heq
            injection heq with heq2
            exact ⟨fw, rfl, by rw [heq2, hcnt]⟩
      · rw [hold] at hf0
        cases hf0
    · intro j fj hj hjw
      rcases hfuts j with heq | ⟨hold, hnew⟩
      · rw [hj] at heq
        cases hf0j : s.futs j with
        | none => rw [hf0j] at heq; simp at heq
        | some f0j =>
            rw [hf0j] at heq
            simp only [Option.map_some'] at heq
            injection heq with heq2
            rw [heq2]
            exact helse j f0j hf0j hjw
      · exact hnew fj hj
  have hqoT : ∀ w, queuedOnceAt s t w → queuedOnceAt s2 t w := by
    intro w ⟨hc1, hall⟩
    refine ⟨by rw [hqc]; exact hc1, ?_⟩
    intro c hc hcw
    exact hall c (hqmem c hc hcw) hcw
  intro td f htd hfu hpend
  have htd0 : s.tasks t = some td := by rw [← htask]; exact htd
  have hfu0 : ∃ f0, s.futs t = some f0 ∧ f0.state = f.state := by
    have hmap := hfutT
    rw [hfu] at hmap
    cases hf0 : s.futs t with
    | none => rw [hf0] at hmap; simp at hmap
    | some f0 =>
        rw [hf0] at hmap
        simp only [Option.map_some'] at hmap
        injection hmap with hmap2
        exact ⟨f0, rfl, hmap2.symm⟩
  obtain ⟨f0, hf0, hst⟩ := hfu0
  have hx := h td f0 htd0 hf0 (by rw [hst, hpend])
  rcases hx with ⟨hA, -⟩ | ⟨hB, -⟩
  · refine xor_of_stepForm s2 t td ⟨hA.1, ?_, hnrT hA.2.2.1, ?_⟩
    · rw [hsteps]; exact hA.2.1
    · rw [hqc]; exact hA.2.2.2
  · obtain ⟨w, hw, h0, hassoc⟩ := hB
    refine xor_of_waiterForm s2 t td ⟨w, hw, by rw [hsteps]; exact h0, ?_⟩
    rcases hassoc with ⟨hr, hq0⟩ | ⟨hnr, hqo⟩
    · exact Or.inl ⟨hregT w hr, by rw [hqc]; exact hq0⟩
    · exact Or.inr ⟨hnrT hnr, hqoT w hqo⟩

end Core

namespace Core

/-- Dequeuing a call that is neither a step nor a wakeup of task `t`
preserves the task's invariant. -/
theorem TaskInv_pop (s : Sys) (c : Call) (rest : List Call)
    (hq : s.queue = c :: rest) (t : Nat)
    (hstep : isStepFor t c = false) (hwake : isWakeupFor t c = false)
    (h : TaskInv s t) : TaskInv { s with queue := rest } t := by
  refine TaskInv_transfer s _ t rfl rfl ?_ ?_ (fun j => Or.inl rfl) ?_ h
  · unfold stepsFor
    rw [hq]
    simp [List.countP_cons, hstep]
  · unfold queuedCount
    rw [hq]
    simp [List.countP_cons, hwake]
  · intro c2 hc2 _
    rw [hq]
    exact List.mem_cons_of_mem c hc2

/-- Dequeuing preserves well-formedness. -/
theorem WF_pop (s : Sys) (c : Call) (rest : List Call) (hq : s.queue = c :: rest)
    (hwf : WF s) : WF { s with queue := rest } := by
  obtain ⟨h1, h2, h3⟩ := hwf
  refine ⟨h1, h2, ?_⟩
  intro t ht
  obtain ⟨g1, g2, g3⟩ := h3 t ht
  refine ⟨?_, ?_, g3⟩
  · unfold stepsFor at g1 ⊢
    rw [hq, List.countP_cons] at g1
    exact Nat.eq_zero_of_add_eq_zero_right g1
  · unfold queuedCount at g2 ⊢
    rw [hq, List.countP_cons] at g2
    exact Nat.eq_zero_of_add_eq_zero_right g2

theorem updTask_tasks_self (s : Sys) (tid : Nat) (td : TaskData) :
    (updTask s tid td).tasks tid = some td := by
  simp [updTask]

theorem updTask_tasks_other (s : Sys) (tid : Nat) (td : TaskData) (j : Nat)
    (h : j ≠ tid) : (updTask s tid td).tasks j = s.tasks j := by
  simp [updTask, h]

/-- Updating another task's record preserves a task's invariant. -/
theorem TaskInv_updTask_other (s : Sys) (tid : Nat) (td : TaskData) (t : Nat)
    (h : t ≠ tid) (hi : TaskInv s t) : TaskInv (updTask s tid td) t :=
  TaskInv_transfer s _ t (updTask_tasks_other s tid td t h) rfl rfl rfl
    (fun _ => Or.inl rfl) (fun _ hc _ => hc) hi

/-- Setting only `_must_cancel` preserves the invariant of the task
itself (the forms do not read the flag). -/
theorem TaskInv_updTask_mustCancel (s : Sys) (tid : Nat) (td0 : TaskData)
    (b : Bool) (htd : s.tasks tid = some td0) (t : Nat) (hi : TaskInv s t) :
    TaskInv (updTask s tid { td0 with must_cancel := b }) t := by
  by_cases h : t = tid
  · subst h
    intro td f htd2 hfu hpend
    rw [updTask_tasks_self] at htd2
    injection htd2 with htd3
    have hx := hi td0 f htd hfu hpend
    rw [← htd3]
    rcases hx with ⟨hA, -⟩ | ⟨hB, -⟩
    · exact xor_of_stepForm _ _ _ ⟨hA.1, hA.2.1, hA.2.2.1, hA.2.2.2⟩
    · obtain ⟨w, hw, h0, hassoc⟩ := hB
      exact xor_of_waiterForm _ _ _ ⟨w, hw, h0, hassoc⟩
  · exact TaskInv_updTask_other s tid _ t h hi

theorem WF_updTask (s : Sys) (tid : Nat) (td : TaskData)
    (h : s.tasks tid ≠ none) (hwf : WF s) : WF (updTask s tid td) := by
  obtain ⟨h1, h2, h3⟩ := hwf
  refine ⟨?_, h2, h3⟩
  intro id hid
  by_cases hit : id = tid
  · subst hit
    exact h1 id h
  · rw [updTask_tasks_other s tid td id hit] at hid
    exact h1 id hid

/-- Components of a completed future's state left untouched by
`Future.result()` (only the observed flag changes). -/
theorem futResult_frames (s : Sys) (fid : Nat) (s1 : Sys)
    (r : Except Exc (Option Val)) (h : futResult s fid = some (s1, r)) :
    s1.tasks = s.tasks ∧ s1.queue = s.queue ∧ s1.nextId = s.nextId
    ∧ ∀ j, (s1.futs j).map (fun g => (g.state, g.callbacks))
        = (s.futs j).map (fun g => (g.state, g.callbacks)) := by
  unfold futResult at h
  cases hf : s.futs fid with
  | none =>
      rw [hf] at h
      cases h
  | some f =>
      rw [hf] at h
      dsimp only at h
      have hupd : ∀ j, ((updFut s fid { f with excObserved := true }).futs j).map
            (fun g => (g.state, g.callbacks))
          = (s.futs j).map (fun g => (g.state, g.callbacks)) := by
        intro j
        by_cases hj : j = fid
        · subst hj
          simp [updFut, hf]
        · simp [updFut, hj]
      cases hst : f.state with
      | pending =>
          rw [hst] at h
          simp only [Option.some.injEq, Prod.mk.injEq] at h
          rw [← h.1]
          exact ⟨rfl, rfl, rfl, fun _ => rfl⟩
      | cancelled =>
          rw [hst] at h
          simp only [Option.some.injEq, Prod.mk.injEq] at h
          rw [← h.1]
          exact ⟨rfl, rfl, rfl, fun _ => rfl⟩
      | finishedE e =>
          rw [hst] at h
          rw [hst] at hupd
          simp only [Option.some.injEq, Prod.mk.injEq] at h
          rw [← h.1]
          exact ⟨rfl, rfl, rfl, hupd⟩
      | finishedV v =>
          rw [hst] at h
          rw [hst] at hupd
          simp only [Option.some.injEq, Prod.mk.injEq] at h
          rw [← h.1]
          exact ⟨rfl, rfl, rfl, hupd⟩

/-- Splitting the state-and-callbacks equality of two optional futures
into the projections the invariant reads. -/
theorem map_state_of_pair (o1 o2 : Option Fut)
    (h : o1.map (fun g => (g.state, g.callbacks))
        = o2.map (fun g => (g.state, g.callbacks))) :
    o1.map (fun g => g.state) = o2.map (fun g => g.state)
    ∧ ∀ p : Callback → Bool,
        o1.map (fun g => g.callbacks.countP p)
          = o2.map (fun g => g.callbacks.countP p) := by
  cases o1 with
  | none =>
      cases o2 with
      | none => exact ⟨rfl, fun _ => rfl⟩
      | some f2 => simp at h
  | some f1 =>
      cases o2 with
      | none => simp at h
      | some f2 =>
          simp only [Option.map_some', Option.some.injEq, Prod.mk.injEq] at h
          simp only [Option.map_some', Option.some.injEq]
          exact ⟨h.1, fun p => by rw [h.2]⟩

theorem TaskInv_futResult (s : Sys) (fid : Nat) (s1 : Sys)
    (r : Except Exc (Option Val)) (h : futResult s fid = some (s1, r))
    (t : Nat) (hi : TaskInv s t) : TaskInv s1 t := by
  obtain ⟨ht, hq, hn, hfu⟩ := futResult_frames s fid s1 r h
  refine TaskInv_transfer s s1 t (by rw [ht]) (map_state_of_pair _ _ (hfu t)).1
    ?_ ?_ (fun j => Or.inl ((map_state_of_pair _ _ (hfu j)).2 (cbFor t))) ?_ hi
  · unfold stepsFor
    rw [hq]
  · unfold queuedCount
    rw [hq]
  · intro c hc _
    rw [← hq]
    exact hc

theorem WF_futResult (s : Sys) (fid : Nat) (s1 : Sys)
    (r : Except Exc (Option Val)) (h : futResult s fid = some (s1, r))
    (hwf : WF s) : WF s1 := by
  obtain ⟨ht, hq, hn, hfu⟩ := futResult_frames s fid s1 r h
  obtain ⟨h1, h2, h3⟩ := hwf
  refine ⟨?_, ?_, ?_⟩
  · intro id hid
    rw [ht] at hid
    rw [hn]
    exact h1 id hid
  · intro id hid
    rw [hn]
    apply h2 id
    intro hnone
    have := hfu id
    rw [hnone] at this
    cases hfid : s1.futs id with
    | none => exact hid hfid
    | some g =>
        rw [hfid] at this
        simp at this
  · intro t ht2
    rw [hn] at ht2
    obtain ⟨g1, g2, g3⟩ := h3 t ht2
    refine ⟨?_, ?_, ?_⟩
    · unfold stepsFor
      rw [hq]
      exact g1
    · unfold queuedCount
      rw [hq]
      exact g2
    · intro j fj hj
      have := (map_state_of_pair _ _ (hfu j)).2 (cbFor t)
      rw [hj] at this
      cases hf0 : s.futs j with
      | none => rw [hf0] at this; simp at this
      | some f0 =>
          rw [hf0] at this
          simp only [Option.map_some', Option.some.injEq] at this
          rw [this]
          exact g3 j f0 hf0

end Core

namespace Core

theorem taskNew_tasks_self (s : Sys) (p : CoroProg) :
    (taskNew s p).1.tasks s.nextId
      = some { coro := p, pc := 0, fut_waiter := none, must_cancel := false } := by
  simp [taskNew]

theorem taskNew_futs_self (s : Sys) (p : CoroProg) :
    (taskNew s p).1.futs s.nextId
      = some { state := .pending, callbacks := [], excObserved := true } := by
  simp [taskNew]

theorem taskNew_tasks_other (s : Sys) (p : CoroProg) (j : Nat)
    (h : j ≠ s.nextId) : (taskNew s p).1.tasks j = s.tasks j := by
  simp [taskNew, h]

theorem taskNew_futs_other (s : Sys) (p : CoroProg) (j : Nat)
    (h : j ≠ s.nextId) : (taskNew s p).1.futs j = s.futs j := by
  simp [taskNew, h]

theorem taskNew_queue (s : Sys) (p : CoroProg) :
    (taskNew s p).1.queue = s.queue ++ [Call.step s.nextId none none] := rfl

theorem taskNew_nextId (s : Sys) (p : CoroProg) :
    (taskNew s p).1.nextId = s.nextId + 1 := rfl

theorem taskNew_id (s : Sys) (p : CoroProg) : (taskNew s p).2 = s.nextId := rfl

theorem stepsFor_taskNew_other (s : Sys) (p : CoroProg) (t : Nat)
    (h : t ≠ s.nextId) : stepsFor (taskNew s p).1 t = stepsFor s t := by
  unfold stepsFor
  rw [taskNew_queue, List.countP_append]
  have hne : isStepFor t (Call.step s.nextId none none) = false := by
    simp [isStepFor]
    exact fun hh => h hh.symm
  simp [List.countP_cons, hne]

theorem stepsFor_taskNew_self (s : Sys) (p : CoroProg) :
    stepsFor (taskNew s p).1 s.nextId = stepsFor s s.nextId + 1 := by
  unfold stepsFor
  rw [taskNew_queue, List.countP_append]
  have hb : isStepFor s.nextId (Call.step s.nextId none none) = true := by
    simp [isStepFor]
  simp [List.countP_cons, hb]

theorem queuedCount_taskNew (s : Sys) (p : CoroProg) (t : Nat) :
    queuedCount (taskNew s p).1 t = queuedCount s t := by
  unfold queuedCount
  rw [taskNew_queue, List.countP_append]
  simp [List.countP_cons, isWakeupFor]

theorem notRegistered_taskNew (s : Sys) (p : CoroProg) (t : Nat)
    (h : notRegistered s t) : notRegistered (taskNew s p).1 t := by
  intro j fj hj
  by_cases hjn : j = s.nextId
  · subst hjn
    rw [taskNew_futs_self] at hj
    injection hj with hfj
    rw [← hfj]
    simp
  · rw [taskNew_futs_other s p j hjn] at hj
    exact h j fj hj

/-- Creating a task preserves every existing task's invariant. -/
theorem TaskInv_taskNew (s : Sys) (p : CoroProg) (t : Nat)
    (hfn : s.futs s.nextId = none) (h : t ≠ s.nextId) (hi : TaskInv s t) :
    TaskInv (taskNew s p).1 t := by
  refine TaskInv_transfer s _ t (taskNew_tasks_other s p t h)
    (by rw [taskNew_futs_other s p t h]) (stepsFor_taskNew_other s p t h)
    (queuedCount_taskNew s p t) ?_ ?_ hi
  · intro j
    by_cases hjn : j = s.nextId
    · subst hjn
      refine Or.inr ⟨hfn, ?_⟩
      intro f hf
      rw [taskNew_futs_self] at hf
      injection hf with hf2
      rw [← hf2]
      simp
    · rw [taskNew_futs_other s p j hjn]
      exact Or.inl rfl
  · intro c hc hcw
    rw [taskNew_queue] at hc
    rcases List.mem_append.mp hc with hcq | hcs
    · exact hcq
    · exfalso
      rw [List.mem_singleton.mp hcs] at hcw
      exact Bool.noConfusion hcw

/-- The freshly created task satisfies the step form of the invariant. -/
theorem taskNew_stepForm (s : Sys) (p : CoroProg) (hwf : WF s) :
    StepForm (taskNew s p).1 s.nextId
      { coro := p, pc := 0, fut_waiter := none, must_cancel := false } := by
  obtain ⟨-, -, h3⟩ := hwf
  obtain ⟨g1, g2, g3⟩ := h3 s.nextId (Nat.le_refl _)
  refine ⟨rfl, ?_, ?_, ?_⟩
  · rw [stepsFor_taskNew_self, g1]
  · intro j fj hj
    by_cases hjn : j = s.nextId
    · subst hjn
      rw [taskNew_futs_self] at hj
      injection hj with hfj
      rw [← hfj]
      simp
    · rw [taskNew_futs_other s p j hjn] at hj
      exact g3 j fj hj
  · rw [queuedCount_taskNew]
    exact g2

theorem WF_taskNew (s : Sys) (p : CoroProg) (hwf : WF s) :
    WF (taskNew s p).1 := by
  obtain ⟨h1, h2, h3⟩ := hwf
  refine ⟨?_, ?_, ?_⟩
  · intro id hid
    rw [taskNew_nextId]
    by_cases hin : id = s.nextId
    · subst hin
      exact Nat.lt_succ_self _
    · rw [taskNew_tasks_other s p id hin] at hid
      exact Nat.lt_succ_of_lt (h1 id hid)
  · intro id hid
    rw [taskNew_nextId]
    by_cases hin : id = s.nextId
    · subst hin
      exact Nat.lt_succ_self _
    · rw [taskNew_futs_other s p id hin] at hid
      exact Nat.lt_succ_of_lt (h2 id hid)
  · intro t ht
    rw [taskNew_nextId] at ht
    have htn : s.nextId ≤ t := Nat.le_of_succ_le ht
    have htne : t ≠ s.nextId := by omega
    obtain ⟨g1, g2, g3⟩ := h3 t htn
    refine ⟨?_, ?_, notRegistered_taskNew s p t g3⟩
    · rw [stepsFor_taskNew_other s p t htne]
      exact g1
    · rw [queuedCount_taskNew]
      exact g2

/-- The two possible shapes of `add_done_callback`. -/
theorem addDoneCallback_cases (s : Sys) (fid : Nat) (cb : Callback) (s1 : Sys)
    (h : addDoneCallback s fid cb = some s1) :
    ∃ f, s.futs fid = some f ∧
      ((f.state.done = true
          ∧ s1 = { s with queue := s.queue ++ [Call.runCb cb fid] })
       ∨ (f.state.done = false
          ∧ s1 = updFut s fid { f with callbacks := f.callbacks ++ [cb] })) := by
  unfold addDoneCallback at h
  cases hf : s.futs fid with
  | none =>
      rw [hf] at h
      cases h
  | some f =>
      rw [hf] at h
      dsimp only at h
      by_cases hd : f.state.done = true
      · rw [if_pos hd] at h
        injection h with h2
        exact ⟨f, rfl, Or.inl ⟨hd, h2.symm⟩⟩
      · rw [if_neg hd] at h
        injection h with h2
        exact ⟨f, rfl, Or.inr ⟨Bool.eq_false_iff.mpr hd, h2.symm⟩⟩

/-- `add_done_callback(_wakeup(tid))` leaves every other task's
invariant untouched. -/
theorem TaskInv_addDoneCallback_other (s : Sys) (fid tid : Nat) (s1 : Sys)
    (h : addDoneCallback s fid (Callback.wakeup tid) = some s1)
    (t : Nat) (ht : t ≠ tid) (hi : TaskInv s t) : TaskInv s1 t := by
  obtain ⟨f, hf, hcase⟩ := addDoneCallback_cases s fid _ s1 h
  have hbt : cbFor t (Callback.wakeup tid) = false := by
    simp [cbFor]
    exact fun hh => ht hh.symm
  rcases hcase with ⟨hd, rfl⟩ | ⟨hd, rfl⟩
  · refine TaskInv_transfer s _ t rfl rfl ?_ ?_ (fun j => Or.inl rfl) ?_ hi
    · unfold stepsFor
      simp [List.countP_append, List.countP_cons, isStepFor]
    · unfold queuedCount
      simp [List.countP_append, List.countP_cons, isWakeupFor, hbt]
    · intro c hc hcw
      rcases List.mem_append.mp hc with hcq | hcs
      · exact hcq
      · exfalso
        rw [List.mem_singleton.mp hcs] at hcw
        have : cbFor t (Callback.wakeup tid) = true := hcw
        rw [hbt] at this
        exact Bool.noConfusion this
  · refine TaskInv_transfer s _ t rfl ?_ rfl rfl ?_ (fun c hc hw => hc) hi
    · by_cases hjt : t = fid
      · subst hjt
        simp [updFut, hf]
      · simp [updFut, hjt]
    · intro j
      by_cases hj : j = fid
      · subst hj
        left
        simp [updFut, hf, List.countP_append, List.countP_cons, hbt]
      · left
        simp [updFut, hj]

/-- `add_done_callback(_wakeup(tid))` on a future installs exactly one
wakeup association for `tid` (registered while the future is pending,
queued when it is already done). -/
theorem addDoneCallback_assoc (s : Sys) (fid tid : Nat) (s1 : Sys)
    (h : addDoneCallback s fid (Callback.wakeup tid) = some s1)
    (hnr : notRegistered s tid) (hq0 : queuedCount s tid = 0) :
    ((regOnceAt s1 tid fid ∧ queuedCount s1 tid = 0)
      ∨ (notRegistered s1 tid ∧ queuedOnceAt s1 tid fid))
    ∧ (∀ t2, stepsFor s1 t2 = stepsFor s t2)
    ∧ s1.tasks = s.tasks ∧ s1.nextId = s.nextId
    ∧ ((s1.futs tid).map (fun g => g.state) = (s.futs tid).map (fun g => g.state)
        ∨ fid = tid) := by
  obtain ⟨f, hf, hcase⟩ := addDoneCallback_cases s fid _ s1 h
  have hbt : cbFor tid (Callback.wakeup tid) = true := by
    simp [cbFor]
  rcases hcase with ⟨hd, rfl⟩ | ⟨hd, rfl⟩
  · refine ⟨Or.inr ⟨hnr, ?_, ?_⟩, ?_, rfl, rfl, Or.inl rfl⟩
    · unfold queuedCount
      rw [List.countP_append]
      unfold queuedCount at hq0
      rw [hq0]
      simp [List.countP_cons, isWakeupFor, hbt]
    · intro c hc hcw
      rcases List.mem_append.mp hc with hcq | hcs
      · exact absurd hcw (by simpa using List.countP_eq_zero.mp hq0 c hcq)
      · exact List.mem_singleton.mp hcs
    · intro t2
      unfold stepsFor
      simp [List.countP_append, List.countP_cons, isStepFor]
  · refine ⟨Or.inl ⟨⟨?_, ?_⟩, ?_⟩, fun t2 => rfl, rfl, rfl, ?_⟩
    · refine ⟨{ f with callbacks := f.callbacks ++ [Callback.wakeup tid] }, ?_, ?_⟩
      · simp [updFut]
      · rw [List.countP_append, hnr fid f hf]
        simp [List.countP_cons, hbt]
    · intro j fj hj hjf
      rw [show (updFut s fid { f with callbacks := f.callbacks ++ [Callback.wakeup tid] }).futs j = s.futs j by simp [updFut, hjf]] at hj
      exact hnr j fj hj
    · exact hq0
    · by_cases hft : fid = tid
      · exact Or.inr hft
      · left
        have : (updFut s fid { f with callbacks := f.callbacks ++ [Callback.wakeup tid] }).futs tid = s.futs tid := by
          simp [updFut]
          intro hh
          exact absurd hh.symm hft
      -- fallthrough
        rw [this]

theorem WF_addDoneCallback (s : Sys) (fid tid : Nat) (s1 : Sys)
    (h : addDoneCallback s fid (Callback.wakeup tid) = some s1)
    (htid : tid < s.nextId) (hwf : WF s) : WF s1 := by
  obtain ⟨f, hf, hcase⟩ := addDoneCallback_cases s fid _ s1 h
  obtain ⟨h1, h2, h3⟩ := hwf
  rcases hcase with ⟨hd, rfl⟩ | ⟨hd, rfl⟩
  · refine ⟨h1, h2, ?_⟩
    intro t ht
    have ht2 : s.nextId ≤ t := ht
    obtain ⟨g1, g2, g3⟩ := h3 t ht2
    have hbt : cbFor t (Callback.wakeup tid) = false := by
      simp [cbFor]
      omega
    refine ⟨?_, ?_, g3⟩
    · unfold stepsFor
      unfold stepsFor at g1
      simp [List.countP_append, List.countP_cons, isStepFor, g1]
    · unfold queuedCount
      unfold queuedCount at g2
      simp [List.countP_append, List.countP_cons, isWakeupFor, hbt, g2]
  · refine ⟨h1, ?_, ?_⟩
    · intro id hid
      by_cases hidf : id = fid
      · subst hidf
        exact h2 id (by simp [hf])
      · rw [show (updFut s fid { f with callbacks := f.callbacks ++ [Callback.wakeup tid] }).futs id = s.futs id by simp [updFut, hidf]] at hid
        exact h2 id hid
    · intro t ht
      have ht2 : s.nextId ≤ t := ht
      obtain ⟨g1, g2, g3⟩ := h3 t ht2
      have hbt : cbFor t (Callback.wakeup tid) = false := by
        simp [cbFor]
        omega
      refine ⟨g1, g2, ?_⟩
      intro j fj hj
      by_cases hjf : j = fid
      · subst hjf
        rw [show (updFut s j { f with callbacks := f.callbacks ++ [Callback.wakeup tid] }).futs j = some { f with callbacks := f.callbacks ++ [Callback.wakeup tid] } by simp [updFut]] at hj
        injection hj with hj2
        rw [← hj2]
        simp [List.countP_append, List.countP_cons, hbt, g3 j f hf]
      · rw [show (updFut s fid { f with callbacks := f.callbacks ++ [Callback.wakeup tid] }).futs j = s.futs j by simp [updFut, hjf]] at hj
        exact g3 j fj hj

/-- Completing an allocated future to a terminal state preserves every
task's invariant. -/
theorem TaskInv_completeFut (s : Sys) (fid : Nat) (f : Fut)
    (ns : FutState (Option Val)) (obs : Bool) (t : Nat)
    (hf : s.futs fid = some f) (hns : ns ≠ .pending)
    (h : TaskInv s t) : TaskInv (completeFut s fid f ns obs) t := by
  intro td f2 htd hfu hpend
  by_cases htf : t = fid
  · subst htf
    rw [completeFut_futs_self] at hfu
    injection hfu with hff
    rw [← hff] at hpend
    exact absurd hpend hns
  · have hfu0 : s.futs t = some f2 := by
      rw [completeFut_futs_other s fid f ns obs t htf] at hfu
      exact hfu
    have hx := h td f2 htd hfu0 hpend
    rcases hx with ⟨hA, -⟩ | ⟨hB, -⟩
    · refine xor_of_stepForm _ _ _ ⟨hA.1, ?_,
        notRegistered_completeFut s fid f ns obs t hA.2.2.1, ?_⟩
      · rw [stepsFor_completeFut]
        exact hA.2.1
      · rw [queuedCount_completeFut, hA.2.2.2, hA.2.2.1 fid f hf]
    · obtain ⟨w, hw, h0, hassoc⟩ := hB
      refine xor_of_waiterForm _ _ _ ⟨w, hw, ?_,
        assoc_completeFut s fid f ns obs t w hf hassoc⟩
      rw [stepsFor_completeFut]
      exact h0

theorem WF_completeFut (s : Sys) (fid : Nat) (f : Fut)
    (ns : FutState (Option Val)) (obs : Bool)
    (hf : s.futs fid = some f) (hwf : WF s) :
    WF (completeFut s fid f ns obs) := by
  obtain ⟨h1, h2, h3⟩ := hwf
  refine ⟨h1, ?_, ?_⟩
  · intro id hid
    by_cases hidf : id = fid
    · subst hidf
      exact h2 id (by simp [hf])
    · rw [completeFut_futs_other s fid f ns obs id hidf] at hid
      exact h2 id hid
  · intro t ht
    obtain ⟨g1, g2, g3⟩ := h3 t ht
    refine ⟨?_, ?_, notRegistered_completeFut s fid f ns obs t g3⟩
    · rw [stepsFor_completeFut]
      exact g1
    · rw [queuedCount_completeFut, g2, g3 fid f hf]

end Core

namespace Core

/-- A future that is not done is pending. -/
theorem eq_pending_of_not_done {α : Type} (st : FutState α)
    (h : st.done = false) : st = .pending := by
  cases st with
  | pending => rfl
  | finishedV v => exact absurd h (by simp [FutState.done])
  | finishedE e => exact absurd h (by simp [FutState.done])
  | cancelled => exact absurd h (by simp [FutState.done])

/-- `_step` always leaves `_must_cancel` clear after the coercion of
lines 208-211 (either the branch cleared it or it was already false). -/
theorem coerceCancel_snd (mc : Bool) (exc : Option Exc) :
    (coerceCancel mc exc).2 = false := by
  unfold coerceCancel
  cases mc with
  | true => simp
  | false => simp

/-- The future just completed satisfies its (vacuous) task invariant. -/
theorem TaskInv_completeFut_self (s : Sys) (fid : Nat) (f : Fut)
    (ns : FutState (Option Val)) (obs : Bool) (hns : ns ≠ .pending) :
    TaskInv (completeFut s fid f ns obs) fid := by
  intro td f2 htd hfu hpend
  rw [completeFut_futs_self] at hfu
  injection hfu with hff
  rw [← hff] at hpend
  exact absurd hpend hns

/-- Scheduling a fresh `_step(tid)` keeps well-formedness. -/
theorem WF_appendStep (s : Sys) (tid : Nat) (e2 : Option Exc)
    (htid : tid < s.nextId) (hwf : WF s) :
    WF { s with queue := s.queue ++ [Call.step tid none e2] } := by
  obtain ⟨h1, h2, h3⟩ := hwf
  refine ⟨h1, h2, ?_⟩
  intro t ht
  have ht2 : s.nextId ≤ t := ht
  obtain ⟨g1, g2, g3⟩ := h3 t ht2
  have hne : isStepFor t (Call.step tid none e2) = false := by
    simp [isStepFor]
    omega
  refine ⟨?_, ?_, g3⟩
  · unfold stepsFor
    unfold stepsFor at g1
    simp [List.countP_append, List.countP_cons, hne, g1]
  · unfold queuedCount
    unfold queuedCount at g2
    simp [List.countP_append, List.countP_cons, isWakeupFor, g2]

/-- Scheduling a `_step(tid)` preserves every other task's invariant. -/
theorem TaskInv_appendStep (s : Sys) (tid : Nat) (e2 : Option Exc) (t : Nat)
    (h : t ≠ tid) (hi : TaskInv s t) :
    TaskInv { s with queue := s.queue ++ [Call.step tid none e2] } t := by
  have hne : isStepFor t (Call.step tid none e2) = false := by
    simp [isStepFor]
    exact fun hh => h hh.symm
  refine TaskInv_transfer s _ t rfl rfl ?_ ?_ (fun j => Or.inl rfl) ?_ hi
  · unfold stepsFor
    simp [List.countP_append, List.countP_cons, hne]
  · unfold queuedCount
    simp [List.countP_append, List.countP_cons, isWakeupFor]
  · intro c hc hcw
    rcases List.mem_append.mp hc with hcq | hcs
    · exact hcq
    · exfalso
      rw [List.mem_singleton.mp hcs] at hcw
      exact Bool.noConfusion hcw

/-- `cancel()` — `Task.cancel` and `Future.cancel` alike — preserves the
global invariant. -/
theorem cancelObj_preserves (fuel : Nat) :
    ∀ (s : Sys) (id : Nat) (s2 : Sys) (b : Bool),
      SysInv s → cancelObj fuel s id = some (s2, b) → SysInv s2 := by
  induction fuel with
  | zero =>
      intro s id s2 b hinv h
      cases h
  | succ fuel ih =>
      intro s id s2 b hinv h
      obtain ⟨hwf, htinv⟩ := hinv
      unfold cancelObj at h
      cases htd : s.tasks id with
      | none =>
          rw [htd] at h
          dsimp only at h
          injection h with h2
          unfold futCancel at h2
          cases hf : s.futs id with
          | none =>
              rw [hf] at h2
              dsimp only at h2
              rw [Prod.mk.injEq] at h2
              rw [← h2.1]
              exact ⟨hwf, htinv⟩
          | some f =>
              rw [hf] at h2
              dsimp only at h2
              by_cases hdone : f.state.done = true
              · rw [if_pos hdone] at h2
                rw [Prod.mk.injEq] at h2
                rw [← h2.1]
                exact ⟨hwf, htinv⟩
              · rw [if_neg hdone] at h2
                rw [Prod.mk.injEq] at h2
                rw [← h2.1]
                refine ⟨WF_completeFut s id f .cancelled f.excObserved hf hwf, ?_⟩
                intro t
                exact TaskInv_completeFut s id f .cancelled f.excObserved t hf
                  (by simp) (htinv t)
      | some td =>
          rw [htd] at h
          dsimp only at h
          cases hf : s.futs id with
          | none =>
              rw [hf] at h
              cases h
          | some f =>
              rw [hf] at h
              dsimp only at h
              by_cases hdone : f.state.done = true
              · rw [if_pos hdone] at h
                injection h with h2
                rw [Prod.mk.injEq] at h2
                rw [← h2.1]
                exact ⟨hwf, htinv⟩
              · rw [if_neg hdone] at h
                cases hw : td.fut_waiter with
                | some w =>
                    rw [hw] at h
                    dsimp only at h
                    cases hrec : cancelObj fuel s w with
                    | none =>
                        rw [hrec] at h
                        cases h
                    | some pr =>
                        obtain ⟨s3, b3⟩ := pr
                        rw [hrec] at h
                        have hinv3 : SysInv s3 := ih s w s3 b3 ⟨hwf, htinv⟩ hrec
                        cases b3 with
                        | true =>
                            dsimp only at h
                            injection h with h2
                            rw [Prod.mk.injEq] at h2
                            rw [← h2.1]
                            exact hinv3
                        | false =>
                            dsimp only at h
                            cases htd3 : s3.tasks id with
                            | none =>
                                rw [htd3] at h
                                cases h
                            | some td2 =>
                                rw [htd3] at h
                                dsimp only at h
                                injection h with h2
                                rw [Prod.mk.injEq] at h2
                                rw [← h2.1]
                                obtain ⟨hwf3, htinv3⟩ := hinv3
                                refine ⟨WF_updTask s3 id _ (by simp [htd3]) hwf3, ?_⟩
                                intro t
                                exact TaskInv_updTask_mustCancel s3 id td2 true htd3 t
                                  (htinv3 t)
                | none =>
                    rw [hw] at h
                    dsimp only at h
                    injection h with h2
                    rw [Prod.mk.injEq] at h2
                    rw [← h2.1]
                    rw [← hw]
                    refine ⟨WF_updTask s id _ (by simp [htd]) hwf, ?_⟩
                    intro t
                    exact TaskInv_updTask_mustCancel s id td true htd t (htinv t)

end Core

namespace Core

/-- Waiting on a future from inside `_step` (register `_wakeup`, set
`_fut_waiter`) restores the full invariant: the stepping task enters the
waiter form and nobody else is disturbed. -/
theorem waitOn_preserves (fuel : Nat) (s : Sys) (tid fid : Nat) (s' : Sys)
    (hwf : WF s) (hothers : ∀ t, t ≠ tid → TaskInv s t)
    (h0 : stepsFor s tid = 0) (h0q : queuedCount s tid = 0)
    (h0r : notRegistered s tid)
    (td : TaskData) (htd1 : s.tasks tid = some td)
    (hmc : td.must_cancel = false)
    (h : waitOn fuel s tid fid = some s') : SysInv s' := by
  unfold waitOn at h
  cases hadd : addDoneCallback s fid (Callback.wakeup tid) with
  | none =>
      rw [hadd] at h
      cases h
  | some s1 =>
      rw [hadd] at h
      dsimp only at h
      obtain ⟨hassoc, hsteps, htasks, hnext, -⟩ :=
        addDoneCallback_assoc s fid tid s1 hadd h0r h0q
      have htid1 : s1.tasks tid = some td := by rw [htasks]; exact htd1
      rw [htid1] at h
      dsimp only at h
      rw [hmc] at h
      simp only [Bool.false_eq_true, if_false] at h
      injection h with h2
      rw [← h2]
      have hwf1 : WF s1 :=
        WF_addDoneCallback s fid tid s1 hadd (hwf.1 tid (by simp [htd1])) hwf
      refine ⟨WF_updTask s1 tid _ (by simp [htid1]) hwf1, ?_⟩
      intro t
      by_cases htt : t = tid
      · subst htt
        intro td2 f2 htd2 hfu2 hpend2
        rw [updTask_tasks_self] at htd2
        injection htd2 with htd3
        refine xor_of_waiterForm _ _ _ ⟨fid, ?_, ?_, ?_⟩
        · rw [← htd3]
        · have hs1 : stepsFor s1 t = 0 := by rw [hsteps t]; exact h0
          exact hs1
        · exact hassoc
      · exact TaskInv_updTask_other s1 tid _ t htt
          (TaskInv_addDoneCallback_other s fid tid s1 hadd t htt (hothers t htt))

/-- `Task.__init__` preserves the global invariant (and the new task
starts in the step form). -/
theorem SysInv_taskNew (s : Sys) (p : CoroProg) (hinv : SysInv s) :
    SysInv (taskNew s p).1 := by
  obtain ⟨hwf, htinv⟩ := hinv
  refine ⟨WF_taskNew s p hwf, ?_⟩
  intro t
  by_cases h : t = s.nextId
  · subst h
    intro td f htd hfu hpend
    rw [taskNew_tasks_self] at htd
    injection htd with htd2
    rw [← htd2]
    exact xor_of_stepForm _ _ _ (taskNew_stepForm s p hwf)
  · have hfn : s.futs s.nextId = none := by
      cases hf : s.futs s.nextId with
      | none => rfl
      | some f => exact absurd (hwf.2.1 s.nextId (by simp [hf])) (lt_irrefl _)
    exact TaskInv_taskNew s p t hfn h (htinv t)

end Core

namespace Core

theorem updTask_futs (s : Sys) (tid : Nat) (td : TaskData) :
    (updTask s tid td).futs = s.futs := rfl

theorem updTask_queue (s : Sys) (tid : Nat) (td : TaskData) :
    (updTask s tid td).queue = s.queue := rfl

theorem stepsFor_appendStep_self (s : Sys) (tid : Nat) (e2 : Option Exc) :
    stepsFor { s with queue := s.queue ++ [Call.step tid none e2] } tid
      = stepsFor s tid + 1 := by
  unfold stepsFor
  simp [List.countP_append, List.countP_cons, isStepFor]

theorem queuedCount_appendStep (s : Sys) (tid : Nat) (e2 : Option Exc)
    (t : Nat) :
    queuedCount { s with queue := s.queue ++ [Call.step tid none e2] } t
      = queuedCount s t := by
  unfold queuedCount
  simp [List.countP_append, List.countP_cons, isWakeupFor]

/-- A terminal outcome of `_step` (`set_result`, `set_exception` or the
`Future.cancel` of a `CancelledError`) restores the global invariant:
the task becomes terminal and its callbacks move into the queue. -/
theorem stepTerminal_preserves (s1 : Sys) (tid : Nat) (f : Fut)
    (ns : FutState (Option Val)) (obs : Bool)
    (hfu : s1.futs tid = some f) (hns : ns ≠ .pending)
    (hwf1 : WF s1) (hothers1 : ∀ t, t ≠ tid → TaskInv s1 t) :
    SysInv (completeFut s1 tid f ns obs) := by
  refine ⟨WF_completeFut s1 tid f ns obs hfu hwf1, ?_⟩
  intro t
  by_cases htt : t = tid
  · subst htt
    exact TaskInv_completeFut_self s1 t f ns obs hns
  · exact TaskInv_completeFut s1 tid f ns obs t hfu hns (hothers1 t htt)

/-- Re-scheduling `_step(tid)` (the bare-yield and bad-yield branches)
restores the global invariant: the stepping task re-enters the step
form. -/
theorem stepReschedule_preserves (s2 : Sys) (tid : Nat) (e2 : Option Exc)
    (td2 : TaskData) (hwf2 : WF s2)
    (hothers2 : ∀ t, t ≠ tid → TaskInv s2 t)
    (htd2 : s2.tasks tid = some td2) (hwaiter : td2.fut_waiter = none)
    (h0 : stepsFor s2 tid = 0) (h0q : queuedCount s2 tid = 0)
    (h0r : notRegistered s2 tid) :
    SysInv { s2 with queue := s2.queue ++ [Call.step tid none e2] } := by
  have htid : tid < s2.nextId := hwf2.1 tid (by simp [htd2])
  refine ⟨WF_appendStep s2 tid e2 htid hwf2, ?_⟩
  intro t
  by_cases htt : t = tid
  · subst htt
    intro td3 f3 htd3 hfu3 hpend3
    have htd3b : s2.tasks t = some td3 := htd3
    rw [htd2] at htd3b
    injection htd3b with htd4
    refine xor_of_stepForm _ _ _ ⟨?_, ?_, ?_, ?_⟩
    · rw [← htd4]
      exact hwaiter
    · rw [stepsFor_appendStep_self, h0]
    · exact fun j fj hj => h0r j fj hj
    · rw [queuedCount_appendStep]
      exact h0q
  · exact TaskInv_appendStep s2 tid e2 t htt (hothers2 t htt)

end Core

namespace Core

theorem stepBegin_futs (s : Sys) (tid : Nat) (td : TaskData) (mc : Bool) :
    (stepBegin s tid td mc).futs = s.futs := rfl

theorem stepBegin_queue (s : Sys) (tid : Nat) (td : TaskData) (mc : Bool) :
    (stepBegin s tid td mc).queue = s.queue := rfl

theorem stepBegin_tasks_self (s : Sys) (tid : Nat) (td : TaskData) (mc : Bool) :
    (stepBegin s tid td mc).tasks tid
      = some { td with fut_waiter := none, must_cancel := mc } := by
  simp [stepBegin, updTask]

theorem WF_stepBegin (s : Sys) (tid : Nat) (td : TaskData) (mc : Bool)
    (h : s.tasks tid ≠ none) (hwf : WF s) : WF (stepBegin s tid td mc) :=
  WF_updTask s tid _ h hwf

theorem TaskInv_stepBegin_other (s : Sys) (tid : Nat) (td : TaskData)
    (mc : Bool) (t : Nat) (h : t ≠ tid) (hi : TaskInv s t) :
    TaskInv (stepBegin s tid td mc) t :=
  TaskInv_updTask_other s tid _ t h hi

theorem SysInv_popCurrent (s : Sys) (h : SysInv s) : SysInv (popCurrent s) := by
  obtain ⟨⟨w1, w2, w3⟩, hti⟩ := h
  refine ⟨⟨w1, w2, w3⟩, ?_⟩
  intro t
  exact TaskInv_transfer s (popCurrent s) t rfl rfl rfl rfl
    (fun _ => Or.inl rfl) (fun _ hc _ => hc) (hti t)

/-- `set_result` on the pending stepping task completes it and restores
the invariant. -/
theorem setResult_terminal (s1 : Sys) (tid : Nat) (f : Fut) (v2 : Option Val)
    (s2 : Sys) (hfu : s1.futs tid = some f) (hpend : f.state = .pending)
    (hwf1 : WF s1) (hothers1 : ∀ t, t ≠ tid → TaskInv s1 t)
    (heq : setResult s1 tid v2 = some s2) : SysInv s2 := by
  unfold setResult at heq
  rw [hfu] at heq
  dsimp only at heq
  rw [if_pos hpend] at heq
  injection heq with heq2
  rw [← heq2]
  exact stepTerminal_preserves s1 tid f (.finishedV v2) f.excObserved hfu
    (by simp) hwf1 hothers1

/-- `set_exception` on the pending stepping task completes it and
restores the invariant. -/
theorem setException_terminal (s1 : Sys) (tid : Nat) (f : Fut) (e2 : Exc)
    (s2 : Sys) (hfu : s1.futs tid = some f) (hpend : f.state = .pending)
    (hwf1 : WF s1) (hothers1 : ∀ t, t ≠ tid → TaskInv s1 t)
    (heq : setException s1 tid e2 = some s2) : SysInv s2 := by
  unfold setException at heq
  rw [hfu] at heq
  dsimp only at heq
  rw [if_pos hpend] at heq
  injection heq with heq2
  rw [← heq2]
  exact stepTerminal_preserves s1 tid f (.finishedE e2) false hfu
    (by simp) hwf1 hothers1

/-- `Future.cancel` on the pending stepping task (a `CancelledError`
escaping the coroutine) completes it and restores the invariant. -/
theorem futCancel_terminal (s1 : Sys) (tid : Nat) (f : Fut)
    (hfu : s1.futs tid = some f) (hdone : ¬f.state.done = true)
    (hwf1 : WF s1) (hothers1 : ∀ t, t ≠ tid → TaskInv s1 t) :
    SysInv ((futCancel s1 tid).1) := by
  unfold futCancel
  rw [hfu]
  dsimp only
  rw [if_neg hdone]
  exact stepTerminal_preserves s1 tid f .cancelled f.excObserved hfu
    (by simp) hwf1 hothers1

end Core


namespace Core

/-- `Task._step` restores the global invariant from the mid-dispatch
state in which the step being executed has already been dequeued (the
hypotheses on `tid` hold whenever the task exists and is pending). -/
theorem taskStep_preserves (fuel : Nat) (s : Sys) (tid : Nat) (v : Option Val)
    (e : Option Exc) (s' : Sys)
    (hwf : WF s) (hothers : ∀ t, t ≠ tid → TaskInv s t)
    (hcond : ∀ td f, s.tasks tid = some td → s.futs tid = some f →
        f.state = .pending →
        stepsFor s tid = 0 ∧ queuedCount s tid = 0 ∧ notRegistered s tid)
    (h : taskStep fuel s tid v e = some s') : SysInv s' := by
  unfold taskStep at h
  cases htd : s.tasks tid with
  | none =>
      rw [htd] at h
      cases hfu : s.futs tid <;> rw [hfu] at h <;> cases h
  | some td =>
      cases hfu : s.futs tid with
      | none =>
          rw [htd, hfu] at h
          cases h
      | some f =>
          rw [htd, hfu] at h
          dsimp only at h
          by_cases hdone : f.state.done = true
          · rw [if_pos hdone] at h
            cases h
          · rw [if_neg hdone] at h
            have hpend : f.state = .pending :=
              eq_pending_of_not_done f.state (Bool.eq_false_iff.mpr hdone)
            obtain ⟨h0, h0q, h0r⟩ := hcond td f htd hfu hpend
            rw [coerceCancel_snd td.must_cancel e] at h
            have htdne : s.tasks tid ≠ none := by simp [htd]
            have htidlt : tid < s.nextId := hwf.1 tid htdne
            have hwf1 : WF (stepBegin s tid td false) :=
              WF_stepBegin s tid td false htdne hwf
            have hothers1 : ∀ t, t ≠ tid → TaskInv (stepBegin s tid td false) t :=
              fun t ht => TaskInv_stepBegin_other s tid td false t ht (hothers t ht)
            have hfu1 : (stepBegin s tid td false).futs tid = some f := hfu
            have hne1 : (stepBegin s tid td false).tasks tid ≠ none := by
              rw [stepBegin_tasks_self]
              simp
            have hfn : s.futs s.nextId = none := by
              cases hfx : s.futs s.nextId with
              | none => rfl
              | some fx =>
                  exact absurd (hwf.2.1 s.nextId (by simp [hfx])) (lt_irrefl _)
            cases hres : td.coro.resume td.pc
                (stepResumeArg (coerceCancel td.must_cancel e).1 v) with
            | ret v2 =>
                rw [hres] at h
                dsimp only at h
                split at h
                · exact Option.noConfusion h
                · rename_i s2 heq
                  injection h with h2
                  rw [← h2]
                  exact SysInv_popCurrent _ (setResult_terminal (stepBegin s tid td false) tid f v2 s2 hfu1 hpend hwf1 hothers1 heq)
            | raiseE e2 =>
                rw [hres] at h
                cases e2 with
                | cancelledError =>
                    dsimp only at h
                    injection h with h2
                    rw [← h2]
                    exact SysInv_popCurrent _ (futCancel_terminal (stepBegin s tid td false) tid f hfu1 hdone hwf1 hothers1)
                | timeoutError =>
                    dsimp only at h
                    split at h
                    · exact Option.noConfusion h
                    · rename_i s2 heq
                      injection h with h2
                      rw [← h2]
                      exact SysInv_popCurrent _ (setException_terminal (stepBegin s tid td false) tid f .timeoutError s2 hfu1 hpend hwf1 hothers1 heq)
                | invalidStateError =>
                    dsimp only at h
                    split at h
                    · exact Option.noConfusion h
                    · rename_i s2 heq
                      injection h with h2
                      rw [← h2]
                      exact SysInv_popCurrent _ (setException_terminal (stepBegin s tid td false) tid f .invalidStateError s2 hfu1 hpend hwf1 hothers1 heq)
                | badYield r =>
                    dsimp only at h
                    split at h
                    · exact Option.noConfusion h
                    · rename_i s2 heq
                      injection h with h2
                      rw [← h2]
                      exact SysInv_popCurrent _ (setException_terminal (stepBegin s tid td false) tid f (.badYield r) s2 hfu1 hpend hwf1 hothers1 heq)
                | generic n =>
                    dsimp only at h
                    split at h
                    · exact Option.noConfusion h
                    · rename_i s2 heq
                      injection h with h2
                      rw [← h2]
                      exact SysInv_popCurrent _ (setException_terminal (stepBegin s tid td false) tid f (.generic n) s2 hfu1 hpend hwf1 hothers1 heq)
            | yielded y pc2 =>
                rw [hres] at h
                cases y with
                | fut fid =>
                    dsimp only [handleYield] at h
                    split at h
                    · exact Option.noConfusion h
                    · rename_i s3 heq
                      injection h with h2
                      rw [← h2]
                      exact SysInv_popCurrent _ (waitOn_preserves fuel _ tid fid s3 (WF_updTask _ tid _ hne1 hwf1) (fun t ht => TaskInv_updTask_other _ tid _ t ht (hothers1 t ht)) h0 h0q h0r { td with pc := pc2, fut_waiter := none, must_cancel := false } (updTask_tasks_self _ tid _) rfl heq)
                | coro p =>
                    dsimp only [handleYield] at h
                    split at h
                    · exact Option.noConfusion h
                    · rename_i s3 heq
                      injection h with h2
                      rw [← h2]
                      have hwfW : WF (updTask (stepBegin s tid td false) tid { td with pc := pc2, fut_waiter := none, must_cancel := false }) := WF_updTask _ tid _ hne1 hwf1
                      have hoW : ∀ t, t ≠ tid → TaskInv (updTask (stepBegin s tid td false) tid { td with pc := pc2, fut_waiter := none, must_cancel := false }) t := fun t ht => TaskInv_updTask_other _ tid _ t ht (hothers1 t ht)
                      refine SysInv_popCurrent _ (waitOn_preserves fuel _ tid _ s3 (WF_taskNew _ p hwfW) ?_ ?_ ?_ ?_ { td with pc := pc2, fut_waiter := none, must_cancel := false } ?_ rfl heq)
                      · intro t ht
                        by_cases htn : t = s.nextId
                        · subst htn
                          intro td4 f4 htd4 hfu4 hpend4
                          have htd5 : (taskNew (updTask (stepBegin s tid td false) tid { td with pc := pc2, fut_waiter := none, must_cancel := false }) p).1.tasks ((updTask (stepBegin s tid td false) tid { td with pc := pc2, fut_waiter := none, must_cancel := false }) : Sys).nextId = some td4 := htd4
                          rw [taskNew_tasks_self] at htd5
                          injection htd5 with htd6
                          rw [← htd6]
                          exact xor_of_stepForm _ _ _ (taskNew_stepForm _ p hwfW)
                        · exact TaskInv_taskNew _ p t hfn htn (hoW t ht)
                      · have hs := stepsFor_taskNew_other (updTask (stepBegin s tid td false) tid { td with pc := pc2, fut_waiter := none, must_cancel := false }) p tid (by show tid ≠ s.nextId; omega)
                        rw [hs]
                        exact h0
                      · rw [queuedCount_taskNew]
                        exact h0q
                      · exact notRegistered_taskNew _ p tid h0r
                      · have hother := taskNew_tasks_other (updTask (stepBegin s tid td false) tid { td with pc := pc2, fut_waiter := none, must_cancel := false }) p tid (by show tid ≠ s.nextId; omega)
                        rw [hother]
                        exact updTask_tasks_self _ tid _
                | lockPrim p =>
                    dsimp only [handleYield] at h
                    split at h
                    · exact Option.noConfusion h
                    · rename_i s3 heq
                      injection h with h2
                      rw [← h2]
                      have hwfW : WF (updTask (stepBegin s tid td false) tid { td with pc := pc2, fut_waiter := none, must_cancel := false }) := WF_updTask _ tid _ hne1 hwf1
                      have hoW : ∀ t, t ≠ tid → TaskInv (updTask (stepBegin s tid td false) tid { td with pc := pc2, fut_waiter := none, must_cancel := false }) t := fun t ht => TaskInv_updTask_other _ tid _ t ht (hothers1 t ht)
                      refine SysInv_popCurrent _ (waitOn_preserves fuel _ tid _ s3 (WF_taskNew _ p hwfW) ?_ ?_ ?_ ?_ { td with pc := pc2, fut_waiter := none, must_cancel := false } ?_ rfl heq)
                      · intro t ht
                        by_cases htn : t = s.nextId
                        · subst htn
                          intro td4 f4 htd4 hfu4 hpend4
                          have htd5 : (taskNew (updTask (stepBegin s tid td false) tid { td with pc := pc2, fut_waiter := none, must_cancel := false }) p).1.tasks ((updTask (stepBegin s tid td false) tid { td with pc := pc2, fut_waiter := none, must_cancel := false }) : Sys).nextId = some td4 := htd4
                          rw [taskNew_tasks_self] at htd5
                          injection htd5 with htd6
                          rw [← htd6]
                          exact xor_of_stepForm _ _ _ (taskNew_stepForm _ p hwfW)
                        · exact TaskInv_taskNew _ p t hfn htn (hoW t ht)
                      · have hs := stepsFor_taskNew_other (updTask (stepBegin s tid td false) tid { td with pc := pc2, fut_waiter := none, must_cancel := false }) p tid (by show tid ≠ s.nextId; omega)
                        rw [hs]
                        exact h0
                      · rw [queuedCount_taskNew]
                        exact h0q
                      · exact notRegistered_taskNew _ p tid h0r
                      · have hother := taskNew_tasks_other (updTask (stepBegin s tid td false) tid { td with pc := pc2, fut_waiter := none, must_cancel := false }) p tid (by show tid ≠ s.nextId; omega)
                        rw [hother]
                        exact updTask_tasks_self _ tid _
                | bareYield =>
                    dsimp only [handleYield] at h
                    injection h with h2
                    rw [← h2]
                    exact SysInv_popCurrent _ (stepReschedule_preserves _ tid none { td with pc := pc2, fut_waiter := none, must_cancel := false } (WF_updTask _ tid _ hne1 hwf1) (fun t ht => TaskInv_updTask_other _ tid _ t ht (hothers1 t ht)) (updTask_tasks_self _ tid _) rfl h0 h0q h0r)
                | bad r =>
                    dsimp only [handleYield] at h
                    injection h with h2
                    rw [← h2]
                    exact SysInv_popCurrent _ (stepReschedule_preserves _ tid (some (Exc.badYield r)) { td with pc := pc2, fut_waiter := none, must_cancel := false } (WF_updTask _ tid _ hne1 hwf1) (fun t ht => TaskInv_updTask_other _ tid _ t ht (hothers1 t ht)) (updTask_tasks_self _ tid _) rfl h0 h0q h0r)

end Core

namespace Core

/-- `Task._wakeup` restores the global invariant from the mid-dispatch
state in which its queued invocation has been dequeued. -/
theorem taskWakeup_preserves (fuel : Nat) (s : Sys) (tid fid : Nat) (s' : Sys)
    (hwf : WF s) (hothers : ∀ t, t ≠ tid → TaskInv s t)
    (hcond : ∀ td f, s.tasks tid = some td → s.futs tid = some f →
        f.state = .pending →
        stepsFor s tid = 0 ∧ queuedCount s tid = 0 ∧ notRegistered s tid)
    (h : taskWakeup fuel s tid fid = some s') : SysInv s' := by
  unfold taskWakeup at h
  cases hres : futResult s fid with
  | none =>
      rw [hres] at h
      cases h
  | some pr =>
      obtain ⟨s1, r⟩ := pr
      rw [hres] at h
      obtain ⟨ht, hq, hn, hfu⟩ := futResult_frames s fid s1 r hres
      have hwf1 : WF s1 := WF_futResult s fid s1 r hres hwf
      have hothers1 : ∀ t, t ≠ tid → TaskInv s1 t :=
        fun t htne => TaskInv_futResult s fid s1 r hres t (hothers t htne)
      have hcond1 : ∀ td f, s1.tasks tid = some td → s1.futs tid = some f →
          f.state = .pending →
          stepsFor s1 tid = 0 ∧ queuedCount s1 tid = 0 ∧ notRegistered s1 tid := by
        intro td f htd1 hfu1 hpend1
        have htd0 : s.tasks tid = some td := by rw [← ht]; exact htd1
        have hpair := (map_state_of_pair _ _ (hfu tid)).1
        rw [hfu1] at hpair
        cases hf0 : s.futs tid with
        | none =>
            rw [hf0] at hpair
            simp at hpair
        | some f0 =>
            rw [hf0] at hpair
            simp only [Option.map_some', Option.some.injEq] at hpair
            obtain ⟨g1, g2, g3⟩ := hcond td f0 htd0 hf0
              (by rw [← hpair]; exact hpend1)
            refine ⟨?_, ?_, ?_⟩
            · unfold stepsFor
              rw [hq]
              exact g1
            · unfold queuedCount
              rw [hq]
              exact g2
            · intro j fj hj
              have hp2 := (map_state_of_pair _ _ (hfu j)).2 (cbFor tid)
              rw [hj] at hp2
              cases hf0j : s.futs j with
              | none =>
                  rw [hf0j] at hp2
                  simp at hp2
              | some f0j =>
                  rw [hf0j] at hp2
                  simp only [Option.map_some', Option.some.injEq] at hp2
                  rw [hp2]
                  exact g3 j f0j hf0j
      cases r with
      | error e2 =>
          dsimp only at h
          exact taskStep_preserves fuel s1 tid none (some e2) s' hwf1 hothers1
            hcond1 h
      | ok v2 =>
          dsimp only at h
          exact taskStep_preserves fuel s1 tid v2 none s' hwf1 hothers1 hcond1 h

/-- One loop iteration — dequeuing and running a scheduled `_step` or a
pending `_wakeup` — preserves the global invariant. -/
theorem loopTick_preserves (fuel : Nat) (s : Sys) (s' : Sys) (hinv : SysInv s)
    (h : loopTick fuel s = some s') : SysInv s' := by
  obtain ⟨hwf, htinv⟩ := hinv
  unfold loopTick at h
  cases hq : s.queue with
  | nil =>
      rw [hq] at h
      injection h with h2
      rw [← h2]
      exact ⟨hwf, htinv⟩
  | cons c rest =>
      rw [hq] at h
      dsimp only at h
      have hwf2 : WF { s with queue := rest } := WF_pop s c rest hq hwf
      cases c with
      | step t0 v e =>
          dsimp only [runCall] at h
          have hothers2 : ∀ t, t ≠ t0 → TaskInv { s with queue := rest } t := by
            intro t htne
            refine TaskInv_pop s _ rest hq t ?_ rfl (htinv t)
            simp [isStepFor]
            exact fun hh => htne hh.symm
          have hcond2 : ∀ td f,
              ({ s with queue := rest } : Sys).tasks t0 = some td →
              ({ s with queue := rest } : Sys).futs t0 = some f →
              f.state = .pending →
              stepsFor { s with queue := rest } t0 = 0
              ∧ queuedCount { s with queue := rest } t0 = 0
              ∧ notRegistered { s with queue := rest } t0 := by
            intro td f htd hfu hpend
            have hx := htinv t0 td f htd hfu hpend
            have hb : isStepFor t0 (Call.step t0 v e) = true := by
              simp [isStepFor]
            have hpos : stepsFor s t0 ≠ 0 := by
              unfold stepsFor
              rw [hq, List.countP_cons, hb]
              simp
            have hSF := stepForm_of_xor s t0 td hx hpos
            refine ⟨?_, ?_, hSF.2.2.1⟩
            · have h1 := hSF.2.1
              unfold stepsFor at h1 ⊢
              rw [hq, List.countP_cons, hb] at h1
              rw [if_pos rfl] at h1
              show List.countP (isStepFor t0) rest = 0
              omega
            · have h4 := hSF.2.2.2
              unfold queuedCount at h4 ⊢
              rw [hq, List.countP_cons] at h4
              have hb2 : isWakeupFor t0 (Call.step t0 v e) = false := rfl
              rw [hb2] at h4
              rw [if_neg (by simp)] at h4
              show List.countP (isWakeupFor t0) rest = 0
              omega
          exact taskStep_preserves fuel _ t0 v e s' hwf2 hothers2 hcond2 h
      | runCb cb fid =>
          cases cb with
          | wakeup t0 =>
              dsimp only [runCall] at h
              have hothers2 : ∀ t, t ≠ t0 →
                  TaskInv { s with queue := rest } t := by
                intro t htne
                refine TaskInv_pop s _ rest hq t rfl ?_ (htinv t)
                simp [isWakeupFor, cbFor]
                exact fun hh => htne hh.symm
              have hcond2 : ∀ td f,
                  ({ s with queue := rest } : Sys).tasks t0 = some td →
                  ({ s with queue := rest } : Sys).futs t0 = some f →
                  f.state = .pending →
                  stepsFor { s with queue := rest } t0 = 0
                  ∧ queuedCount { s with queue := rest } t0 = 0
                  ∧ notRegistered { s with queue := rest } t0 := by
                intro td f htd hfu hpend
                have hx := htinv t0 td f htd hfu hpend
                have hb : isWakeupFor t0 (Call.runCb (Callback.wakeup t0) fid)
                    = true := by
                  simp [isWakeupFor, cbFor]
                have hpos : queuedCount s t0 ≠ 0 := by
                  unfold queuedCount
                  rw [hq, List.countP_cons, hb]
                  simp
                obtain ⟨w, hw, h0s, hnr, hqo⟩ :=
                  waiterQueued_of_xor s t0 td hx hpos
                refine ⟨?_, ?_, hnr⟩
                · unfold stepsFor at h0s ⊢
                  rw [hq, List.countP_cons] at h0s
                  have hb2 : isStepFor t0 (Call.runCb (Callback.wakeup t0) fid)
                      = false := rfl
                  rw [hb2] at h0s
                  rw [if_neg (by simp)] at h0s
                  show List.countP (isStepFor t0) rest = 0
                  omega
                · have h1 := hqo.1
                  unfold queuedCount at h1 ⊢
                  rw [hq, List.countP_cons, hb] at h1
                  rw [if_pos rfl] at h1
                  show List.countP (isWakeupFor t0) rest = 0
                  omega
              exact taskWakeup_preserves fuel _ t0 fid s' hwf2 hothers2 hcond2 h

end Core

namespace Core

/-- The empty system satisfies the global invariant. -/
theorem sysInv_sysEmpty : SysInv sysEmpty := by
  refine ⟨⟨?_, ?_, ?_⟩, ?_⟩
  · intro id h
    exact absurd rfl h
  · intro id h
    exact absurd rfl h
  · intro t ht
    exact ⟨rfl, rfl, fun fid f hf => by cases hf⟩
  · intro t td f htd
    cases htd

/-- `Task.cancel` — and `Future.cancel`, reached through the virtual
waiter dispatch — never writes `_fut_waiter`: it only completes futures,
moves their callbacks to the queue and sets `_must_cancel` flags. -/
theorem cancelObj_fut_waiter (fuel : Nat) :
    ∀ (s : Sys) (id : Nat) (s2 : Sys) (b : Bool),
      cancelObj fuel s id = some (s2, b) →
      ∀ t, (s2.tasks t).map TaskData.fut_waiter
        = (s.tasks t).map TaskData.fut_waiter := by
  induction fuel with
  | zero =>
      intro s id s2 b h
      cases h
  | succ fuel ih =>
      intro s id s2 b h t
      unfold cancelObj at h
      cases htd : s.tasks id with
      | none =>
          rw [htd] at h
          dsimp only at h
          injection h with h2
          unfold futCancel at h2
          cases hf : s.futs id with
          | none =>
              rw [hf] at h2
              dsimp only at h2
              rw [Prod.mk.injEq] at h2
              rw [← h2.1]
          | some f =>
              rw [hf] at h2
              dsimp only at h2
              by_cases hdone : f.state.done = true
              · rw [if_pos hdone] at h2
                rw [Prod.mk.injEq] at h2
                rw [← h2.1]
              · rw [if_neg hdone] at h2
                rw [Prod.mk.injEq] at h2
                rw [← h2.1]
                rfl
      | some td =>
          rw [htd] at h
          dsimp only at h
          cases hf : s.futs id with
          | none =>
              rw [hf] at h
              cases h
          | some f =>
              rw [hf] at h
              dsimp only at h
              by_cases hdone : f.state.done = true
              · rw [if_pos hdone] at h
                injection h with h2
                rw [Prod.mk.injEq] at h2
                rw [← h2.1]
              · rw [if_neg hdone] at h
                cases hw : td.fut_waiter with
                | none =>
                    rw [hw] at h
                    dsimp only at h
                    injection h with h2
                    rw [Prod.mk.injEq] at h2
                    rw [← h2.1]
                    by_cases hti : t = id
                    · rw [hti, updTask_tasks_self, htd]
                      simp [hw]
                    · rw [updTask_tasks_other s id _ t hti]
                | some w =>
                    rw [hw] at h
                    dsimp only at h
                    cases hcw : cancelObj fuel s w with
                    | none =>
                        rw [hcw] at h
                        cases h
                    | some pr =>
                        obtain ⟨s3, b3⟩ := pr
                        rw [hcw] at h
                        cases b3 with
                        | true =>
                            dsimp only at h
                            injection h with h2
                            rw [Prod.mk.injEq] at h2
                            rw [← h2.1]
                            exact ih s w s3 true hcw t
                        | false =>
                            dsimp only at h
                            cases htd2 : s3.tasks id with
                            | none =>
                                rw [htd2] at h
                                cases h
                            | some td2 =>
                                rw [htd2] at h
                                dsimp only at h
                                injection h with h2
                                rw [Prod.mk.injEq] at h2
                                rw [← h2.1]
                                have hmap := ih s w s3 false hcw
                                by_cases hti : t = id
                                · rw [hti, updTask_tasks_self]
                                  have hm := hmap id
                                  rw [htd2] at hm
                                  rw [← hm]
                                  rfl
                                · rw [updTask_tasks_other s3 id _ t hti]
                                  exact hmap t

/-- C1: the `_step`/`_wakeup` invariant of `tasks.py` lines 37-44 — for
every task whose future is still pending, exactly one of two forms
holds: `_fut_waiter` is `None` and exactly one `_step` invocation is
queued with no `_wakeup` association anywhere, or `_fut_waiter` is some
future with `_wakeup` associated with it exactly once (registered as its
done-callback, or — once that future completed — sitting in the queue as
a pending invocation) and no `_step` queued — and every operation
preserves it: task construction (`Task.__init__`), `Task.cancel` with
its virtual waiter dispatch, and a loop iteration dispatching a queued
`Task._step` or `Task._wakeup`, which is the only way `_step` and
`_wakeup` ever run. -/
theorem task_invariant_preserved (fuel : Nat) (s s2 s' : Sys)
    (p : CoroProg) (id : Nat) (b : Bool) (hinv : SysInv s) :
    SysInv (taskNew s p).1
    ∧ (cancelObj fuel s id = some (s2, b) → SysInv s2)
    ∧ (loopTick fuel s = some s' → SysInv s') := by
  refine ⟨SysInv_taskNew s p hinv, ?_, ?_⟩
  · intro h
    exact cancelObj_preserves fuel s id s2 b hinv h
  · intro h
    exact loopTick_preserves fuel s s' hinv h

/-- Witness for C1 at the empty system and the probe coroutine. -/
theorem task_invariant_preserved_witness :
    SysInv sysEmpty
    ∧ (SysInv (taskNew sysEmpty probeCancel).1
       ∧ (cancelObj 1 sysEmpty 0 = some (sysEmpty, false) → SysInv sysEmpty)
       ∧ (loopTick 1 sysEmpty = some sysEmpty → SysInv sysEmpty)) :=
  ⟨sysInv_sysEmpty,
   task_invariant_preserved 1 sysEmpty sysEmpty sysEmpty probeCancel 0 false
     sysInv_sysEmpty⟩

/-- C2: `Task.cancel()` (`tasks.py` lines 173-203) — on a terminal task
it returns `False` and changes nothing; on a non-terminal task whose
`_fut_waiter` is set and whose `_fut_waiter.cancel()` returns `True` it
returns `True` with `_fut_waiter` left in place; in every other
non-terminal case (`_fut_waiter` absent, or its `cancel()` returned
`False`) it sets `_must_cancel` and returns `True`; and a set
`_must_cancel` makes the pending `_step` resume the coroutine by
throwing `CancelledError` into it. -/
theorem task_cancel_spec (fuel : Nat) (s : Sys) (id : Nat) (td : TaskData)
    (f : Fut) (htd : s.tasks id = some td) (hf : s.futs id = some f) :
    (f.state.done = true → cancelObj (fuel + 1) s id = some (s, false))
    ∧ (f.state.done = false → ∀ w s2, td.fut_waiter = some w →
        cancelObj fuel s w = some (s2, true) →
        cancelObj (fuel + 1) s id = some (s2, true)
        ∧ ∃ td2, s2.tasks id = some td2 ∧ td2.fut_waiter = some w)
    ∧ (f.state.done = false → ∀ w s2, td.fut_waiter = some w →
        cancelObj fuel s w = some (s2, false) →
        ∃ td2, s2.tasks id = some td2
          ∧ cancelObj (fuel + 1) s id
            = some (updTask s2 id { td2 with must_cancel := true }, true))
    ∧ (f.state.done = false → td.fut_waiter = none →
        cancelObj (fuel + 1) s id
          = some (updTask s id { td with must_cancel := true }, true))
    ∧ (td.must_cancel = true → ∀ exc value,
        stepResumeArg (coerceCancel td.must_cancel exc).1 value
          = ResumeArg.throwE Exc.cancelledError) := by
  refine ⟨?_, ?_, ?_, ?_, ?_⟩
  · intro hdone
    unfold cancelObj
    rw [htd]
    dsimp only
    rw [hf]
    dsimp only
    rw [if_pos hdone]
  · intro hnd w s2 hw hcw
    constructor
    · unfold cancelObj
      rw [htd]
      dsimp only
      rw [hf]
      dsimp only
      rw [if_neg (by simp [hnd])]
      rw [hw]
      dsimp only
      rw [hcw]
    · have hmap := cancelObj_fut_waiter fuel s w s2 true hcw id
      rw [htd] at hmap
      cases htd2 : s2.tasks id with
      | none =>
          rw [htd2] at hmap
          simp at hmap
      | some td2 =>
          rw [htd2] at hmap
          refine ⟨td2, rfl, ?_⟩
          have hwt : td2.fut_waiter = td.fut_waiter := by simpa using hmap
          rw [hwt, hw]
  · intro hnd w s2 hw hcw
    have hmap := cancelObj_fut_waiter fuel s w s2 false hcw id
    rw [htd] at hmap
    cases htd2 : s2.tasks id with
    | none =>
        rw [htd2] at hmap
        simp at hmap
    | some td2 =>
        refine ⟨td2, rfl, ?_⟩
        unfold cancelObj
        rw [htd]
        dsimp only
        rw [hf]
        dsimp only
        rw [if_neg (by simp [hnd])]
        rw [hw]
        dsimp only
        rw [hcw]
        dsimp only
        rw [htd2]
  · intro hnd hw
    unfold cancelObj
    rw [htd]
    dsimp only
    rw [hf]
    dsimp only
    rw [if_neg (by simp [hnd])]
    rw [hw]
  · intro hmc exc value
    have h1 : (coerceCancel td.must_cancel exc).1 = some Exc.cancelledError := by
      rw [hmc]
      unfold coerceCancel
      by_cases he : exc = some Exc.cancelledError
      · simp [he]
      · simp [he]
    rw [h1]
    rfl

/-- Witness for C2 at the one-task probe system. -/
theorem task_cancel_spec_witness :
    (sysProbe.tasks 0 = some tdProbe ∧ sysProbe.futs 0 = some futFresh)
    ∧ ((futFresh.state.done = true →
          cancelObj (1 + 1) sysProbe 0 = some (sysProbe, false))
       ∧ (futFresh.state.done = false → ∀ w s2, tdProbe.fut_waiter = some w →
            cancelObj 1 sysProbe w = some (s2, true) →
            cancelObj (1 + 1) sysProbe 0 = some (s2, true)
            ∧ ∃ td2, s2.tasks 0 = some td2 ∧ td2.fut_waiter = some w)
       ∧ (futFresh.state.done = false → ∀ w s2, tdProbe.fut_waiter = some w →
            cancelObj 1 sysProbe w = some (s2, false) →
            ∃ td2, s2.tasks 0 = some td2
              ∧ cancelObj (1 + 1) sysProbe 0
                = some (updTask s2 0 { td2 with must_cancel := true }, true))
       ∧ (futFresh.state.done = false → tdProbe.fut_waiter = none →
            cancelObj (1 + 1) sysProbe 0
              = some (updTask sysProbe 0 { tdProbe with must_cancel := true },
                  true))
       ∧ (tdProbe.must_cancel = true → ∀ exc value,
            stepResumeArg (coerceCancel tdProbe.must_cancel exc).1 value
              = ResumeArg.throwE Exc.cancelledError)) :=
  ⟨⟨rfl, rfl⟩, task_cancel_spec 1 sysProbe 0 tdProbe futFresh rfl rfl⟩

end Core
